import Mathlib

/-!
Verification of the `AnswerStore` core (leapp/messaging/answerstore.py).

The Python code is shallowly embedded: the process-shared `Manager().dict()`
storage is modelled as an association list updated by whole-entry replacement
(the single-process sequential semantics of the code), Python values that can
occur in an answer entry are modelled by the closed inductive type `Value`,
and every fallible operation returns `Except PyErr`.
-/

set_option autoImplicit false

/-- Python exception classes that the modelled code can raise. -/
inductive PyErr where
  | valueError
  | attributeError
  | typeError
  | parseError
  | missingSectionHeader
  deriving DecidableEq, Repr

/-- A Python value that can be stored in an answer entry or in a component's
`value`/`default` slot: a raw string, a bool, an int, a tuple of strings, or
`None`. -/
inductive Value where
  | str (s : String)
  | bool (b : Bool)
  | int (i : Int)
  | tuple (xs : List String)
  | none
  deriving DecidableEq, Repr

/-- The declared `value_type` of a component: `bool`, `int`, `tuple`
(multi-choice), or any other type (modelled as `str`, covering the plain and
choice-restricted string components). -/
inductive ValueType where
  | bool
  | int
  | tuple
  | str
  deriving DecidableEq, Repr

/-- `value_type.__name__` as used in the generated file's `Type:` comment. -/
def ValueType.name : ValueType → String
  | .bool => "bool"
  | .int => "int"
  | .tuple => "tuple"
  | .str => "str"

/-! ### Python character/string primitives -/

/-- Python `str.strip()` at the character-list level: drop whitespace from
both ends. -/
def stripChars (cs : List Char) : List Char :=
  ((cs.dropWhile Char.isWhitespace).reverse.dropWhile Char.isWhitespace).reverse

/-- Python `str.strip()`. -/
def pyStrip (s : String) : String :=
  String.mk (stripChars s.data)

/-- ASCII lower-casing of one character, as Python `str.lower()` acts on the
ASCII range (the only range the modelled code compares against). -/
def lowerChar (c : Char) : Char :=
  if 'A' ≤ c ∧ c ≤ 'Z' then Char.ofNat (c.toNat + 32) else c

/-- Python `str.lower()` (ASCII range). -/
def pyLower (s : String) : String :=
  String.mk (s.data.map lowerChar)

/-- Helper for `splitCh`: the accumulator holds the current field reversed. -/
def splitChAux (d : Char) : List Char → List Char → List String
  | [], acc => [String.mk acc.reverse]
  | c :: cs, acc =>
      if c = d then String.mk acc.reverse :: splitChAux d cs []
      else splitChAux d cs (c :: acc)

/-- Python `str.split(d)` for a one-character separator `d`:
`"".split(d) = [""]`, and separators delimit possibly-empty fields. -/
def splitCh (d : Char) (s : String) : List String :=
  splitChAux d s.data []

/-- Python `d.join(xs)` at the character level for a one-character separator. -/
def intercalateCh (d : Char) : List String → List Char
  | [] => []
  | [x] => x.data
  | x :: xs => x.data ++ d :: intercalateCh d xs

/-- Python `";".join(xs)` for a list of strings. -/
def joinCh (d : Char) (xs : List String) : String :=
  String.mk (intercalateCh d xs)

/-! ### Python integer printing and parsing -/

/-- Decimal digits of `n`, least significant first. -/
def natDigitsRev (n : Nat) : List Char :=
  if h : n < 10 then [Nat.digitChar n]
  else Nat.digitChar (n % 10) :: natDigitsRev (n / 10)
termination_by n
decreasing_by
  exact Nat.div_lt_self (by omega) (by omega)

/-- Python `str(n)` for a natural number: its decimal representation. -/
def natRepr (n : Nat) : String :=
  String.mk (natDigitsRev n).reverse

/-- Python `str(i)` for an integer. -/
def intRepr : Int → String
  | Int.ofNat n => natRepr n
  | Int.negSucc m => "-" ++ natRepr (m + 1)

/-- Numeric value of an ASCII digit character. -/
def digitVal? (c : Char) : Option Nat :=
  if c.isDigit then some (c.toNat - 48) else Option.none

/-- Parse a nonempty list of ASCII decimal digits. -/
def parseDigits? (cs : List Char) : Option Nat :=
  if cs.isEmpty then Option.none
  else cs.foldl (fun acc c =>
    match acc, digitVal? c with
    | some n, some d => some (10 * n + d)
    | _, _ => Option.none) (some 0)

/-- Python `int(s)` on ASCII input: strip whitespace, allow one optional
sign, then require a nonempty run of decimal digits; anything else raises
`ValueError` (modelled as `none`). -/
def pyInt? (s : String) : Option Int :=
  match stripChars s.data with
  | [] => Option.none
  | '-' :: rest => (parseDigits? rest).map (fun n => -(n : Int))
  | '+' :: rest => (parseDigits? rest).map (fun n => (n : Int))
  | cs => (parseDigits? cs).map (fun n => (n : Int))

/-! ### Python value semantics -/

/-- Python truthiness of a stored value: `None`, `False`, `0`, `()` and `""`
are falsy, everything else stored here is truthy. -/
def Value.truthy : Value → Bool
  | .str s => s ≠ ""
  | .bool b => b
  | .int i => i ≠ 0
  | .tuple xs => ¬ xs.isEmpty
  | .none => false

/-- Python `repr` of a string, as it appears inside `str` of a tuple.
(Quote/backslash escaping is not modelled; the repository only ever renders
tuples inside generated comment lines.) -/
def pyReprStr (s : String) : String :=
  "'" ++ s ++ "'"

/-- Python `str(v)` for a stored value, as used by `'{}'.format(v)`. -/
def Value.pyStr : Value → String
  | .str s => s
  | .bool true => "True"
  | .bool false => "False"
  | .int i => intRepr i
  | .tuple [] => "()"
  | .tuple [x] => "(" ++ pyReprStr x ++ ",)"
  | .tuple (x :: y :: xs) =>
      "(" ++ (((y :: xs).map pyReprStr).foldl (fun a b => a ++ ", " ++ b) (pyReprStr x)) ++ ")"
  | .none => "None"

/-- Python `';'.join(v)`: defined on tuples of strings (element-wise) and on
strings (character-wise); any other operand raises `TypeError`. -/
def pyJoin : Value → Except PyErr String
  | .tuple xs => .ok (joinCh ';' xs)
  | .str s => .ok (joinCh ';' (s.data.map (fun c => String.mk [c])))
  | _ => .error .typeError

/-! ### Association lists (the model of Python dicts)

Python dicts are modelled as association lists with unique insertion-ordered
keys; `assocSet` mirrors `d[k] = v` (update in place, or append a new key). -/

/-- `d.get(k)` with `None`/absent as `none`. -/
def assocFind? {α : Type} : List (String × α) → String → Option α
  | [], _ => Option.none
  | (k, v) :: rest, key => if k = key then some v else assocFind? rest key

/-- `d[k] = v`: replace the value of an existing key in place, else append. -/
def assocSet {α : Type} : List (String × α) → String → α → List (String × α)
  | [], key, v => [(key, v)]
  | (k, w) :: rest, key, v =>
      if k = key then (key, v) :: rest else (k, w) :: assocSet rest key v

/-- An entry: the key-to-value dict stored under one scope. -/
abbrev Entry : Type := List (String × Value)

/-- The shared storage: the scope-to-entry dict. -/
abbrev Storage : Type := List (String × Entry)

/-- `entry.get(key)`: Python `dict.get` returning `None` when absent.
The result is a `Value`, with `Value.none` standing for Python `None`. -/
def Entry.get (e : Entry) (k : String) : Value :=
  (assocFind? e k).getD Value.none

/-- `entry.find?` exposes presence: `some v` iff `key in entry` holds with
stored value `v`. -/
def Entry.find? (e : Entry) (k : String) : Option Value :=
  assocFind? e k

/-- `entry[key] = v`. -/
def Entry.set (e : Entry) (k : String) (v : Value) : Entry :=
  assocSet e k v

/-- `storage.get(scope)` (no fallback). -/
def Storage.find? (st : Storage) (s : String) : Option Entry :=
  assocFind? st s

/-- `storage[scope] = entry`. -/
def Storage.set (st : Storage) (s : String) (e : Entry) : Storage :=
  assocSet st s e

/-! ### The dialog model (external collaborator interface) -/

/-- One typed question of a dialog (leapp's component). `choices = none`
models a component class without a `choices` attribute (`hasattr` is false);
`value` is the mutable slot that `translate` populates. -/
structure Component where
  key : String
  label : String
  description : String
  value_type : ValueType
  default : Value
  choices : Option (List String)
  value : Value
  deriving DecidableEq, Repr

/-- A dialog: a named question group. -/
structure Dialog where
  scope : String
  title : String
  reason : String
  components : List Component
  deriving DecidableEq, Repr

/-- An actor exposes zero or more dialogs. -/
structure Actor where
  dialogs : List Dialog
  deriving DecidableEq, Repr

/-- A stage exposes an ordered list of actors. -/
structure Stage where
  actors : List Actor
  deriving DecidableEq, Repr

/-- A workflow exposes `phase_actors`: an ordered collection of phases, each
an ordered sequence whose slice `[1:]` is iterated as stages. -/
structure Workflow where
  phase_actors : List (List Stage)
  deriving DecidableEq, Repr

/-! ### AnswerStore.answer / AnswerStore.get -/

namespace AnswerStore

/-- `AnswerStore.answer(scope, key, value)`: read the current entry for the
scope (or an empty dict), set the key, and write the whole entry back. -/
def answer (st : Storage) (scope key : String) (v : Value) : Storage :=
  let dialog_scope := (st.find? scope).getD []
  st.set scope (dialog_scope.set key v)

/-- `AnswerStore.get(scope, fallback=None)`: the entry for the scope, or the
fallback when absent (`none` models Python `None`). -/
def get (st : Storage) (scope : String) (fallback : Option Entry) : Option Entry :=
  match st.find? scope with
  | some e => some e
  | Option.none => fallback

/-! ### AnswerStore.translate -/

/-- The per-type coercion branch of `translate`, acting on the entry once the
stored value at `c.key` is known to be the raw string `s`:
bool lowers and compares with `"true"`; int parses (raising `ValueError` on
failure); tuple splits on `;` and intersects with `component.choices` (an
absent attribute raises `AttributeError`); otherwise, when the component has
a `choices` attribute, the value is kept only if it is an allowed choice.
`tuple(set(elements).intersection(choices))` has unspecified ordering in
Python; it is modelled with last-occurrence deduplication order. -/
def applyBranch (c : Component) (e : Entry) (s : String) : Except PyErr Entry :=
  match c.value_type with
  | .bool => .ok (e.set c.key (Value.bool (pyLower s = "true")))
  | .int =>
      match pyInt? s with
      | some n => .ok (e.set c.key (Value.int n))
      | Option.none => .error .valueError
  | .tuple =>
      match c.choices with
      | some chs =>
          let elements := splitCh ';' s
          .ok (e.set c.key (Value.tuple (elements.dedup.filter (fun x => decide (x ∈ chs)))))
      | Option.none => .error .attributeError
  | .str =>
      match c.choices with
      | some chs =>
          let value := s
          .ok (e.set c.key (if value ∈ chs then Value.str value else Value.none))
      | Option.none => .ok e

/-- The body of `translate`'s component loop for one component: coerce only
when the key is present in the entry and its value is still a raw string, and
in that case also set the component's `value` slot to `entry.get(key)`. -/
def translateComponent (e : Entry) (c : Component) : Except PyErr (Entry × Component) :=
  match e.find? c.key with
  | some (Value.str s) => do
      let e' ← applyBranch c e s
      .ok (e', { c with value := e'.get c.key })
  | _ => .ok (e, c)

/-- `translate`'s loop over all components of a dialog, threading the entry. -/
def translateLoop : Entry → List Component → Except PyErr (Entry × List Component)
  | e, [] => .ok (e, [])
  | e, c :: cs => do
      let (e', c') ← translateComponent e c
      let (e'', cs') ← translateLoop e' cs
      .ok (e'', c' :: cs')

/-- `AnswerStore.translate(dialog)`: fetch the scope's entry; when it is
truthy (present and nonempty) run the component loop and write the whole
entry back via `storage.update`. -/
def translate (st : Storage) (d : Dialog) : Except PyErr (Storage × Dialog) :=
  match st.find? d.scope with
  | some entry =>
      if entry = ([] : Entry) then .ok (st, d)
      else do
        let (e', cs') ← translateLoop entry d.components
        .ok (st.set d.scope e', { d with components := cs' })
  | Option.none => .ok (st, d)

/-- `AnswerStore.translate_for_workflow`'s per-dialog iteration, applied to an
explicit dialog list. -/
def translateDialogs : Storage → List Dialog → Except PyErr (Storage × List Dialog)
  | st, [] => .ok (st, [])
  | st, d :: ds => do
      let (st', d') ← translate st d
      let (st'', ds') ← translateDialogs st' ds
      .ok (st'', d' :: ds')

/-! ### AnswerStore._get_dialogs -/

/-- `AnswerStore._get_dialogs(workflow)`: `dialogs.extend(actor.dialogs)` over
`for phase in workflow.phase_actors: for stage in phase[1:]: for actor in
stage.actors`. -/
def _get_dialogs (workflow : Workflow) : List Dialog :=
  workflow.phase_actors.foldl
    (fun dialogs phase =>
      (phase.drop 1).foldl
        (fun dialogs stage =>
          stage.actors.foldl (fun dialogs actor => dialogs ++ actor.dialogs) dialogs)
        dialogs)
    []

end AnswerStore

namespace AnswerStore

/-! ### AnswerStore.load

`load` parses the answer file with `SafeConfigParser(allow_no_value=True)`
and replaces `storage[section]` for every parsed section.  The parser is
modelled on the behaviour shared by the Python 2 and Python 3 `configparser`
on the line shapes the repository itself generates: blank lines and lines
starting with `#`/`;` are skipped, `[name]` opens a section (the name runs to
the first `]`), and `key = value` (or `key : value`) lines store the stripped
value under the stripped, lower-cased (`optionxform`) key; a bare key stores
`None`; an option line before any section header raises
`MissingSectionHeaderError`.  Continuation lines and interpolation do not
arise for the generated shapes and are not modelled. -/

/-- Parse a `[section]` header line: the name is everything after `[` up to
the first `]`, which must exist and be nonempty. -/
def headerName? (line : String) : Option String :=
  match line.data with
  | '[' :: rest =>
      let name := rest.takeWhile (fun c => c ≠ ']')
      if name.isEmpty then Option.none
      else if (rest.dropWhile (fun c => c ≠ ']')).isEmpty then Option.none
      else some (String.mk name)
  | _ => Option.none

/-- Split a line's characters at the first `=` or `:` delimiter. -/
def splitAtDelim : List Char → Option (List Char × List Char)
  | [] => Option.none
  | c :: cs =>
      if c = '=' ∨ c = ':' then some ([], cs)
      else
        match splitAtDelim cs with
        | some (a, b) => some (c :: a, b)
        | Option.none => Option.none

/-- Parse an option line into its (lower-cased, stripped) key and stripped
value; a delimiter-free line is a bare key with value `None`
(`allow_no_value=True`). -/
def optLine? (line : String) : Option (String × Value) :=
  match splitAtDelim line.data with
  | some (before, after) =>
      let key := pyStrip (String.mk before)
      if key = "" then Option.none
      else some (pyLower key, Value.str (pyStrip (String.mk after)))
  | Option.none =>
      let key := pyStrip line
      if key = "" then Option.none else some (pyLower key, Value.none)

/-- `line[0]`, when the line is nonempty. -/
def firstChar? (s : String) : Option Char :=
  s.data.head?

/-- The parser's line loop: `cur` is the currently open section, `acc` the
sections read so far (a repeated header reopens the existing section). -/
def parseLinesAux : List String → Option String → Storage → Except PyErr Storage
  | [], _, acc => .ok acc
  | line :: rest, cur, acc =>
      if pyStrip line = "" then parseLinesAux rest cur acc
      else if firstChar? line = some '#' ∨ firstChar? line = some ';' then
        parseLinesAux rest cur acc
      else if firstChar? line = some '[' then
        match headerName? line with
        | some name =>
            parseLinesAux rest (some name)
              (if (assocFind? acc name).isSome then acc else acc.set name [])
        | Option.none => .error .parseError
      else
        match cur with
        | Option.none => .error .missingSectionHeader
        | some sec =>
            match optLine? line with
            | some (k, v) =>
                let e := (assocFind? acc sec).getD []
                parseLinesAux rest cur (acc.set sec (e.set k v))
            | Option.none => .error .parseError

/-- `AnswerStore.load(answer_file)` applied to the file's text: parse the
document and replace `storage[section]` for each parsed section, in parse
order. -/
def load (st : Storage) (file : String) : Except PyErr Storage := do
  let parsed ← parseLinesAux (splitCh '\n' file) Option.none []
  .ok (parsed.foldl (fun acc kv => acc.set kv.1 kv.2) st)

/-! ### AnswerStore.generate

`generate` writes newline-terminated chunks with `f.writelines`; it is
modelled at line granularity (`generateLines`, one list element per physical
output line) and the written file is their concatenation with `\n` appended
to each line (`generate`). -/

/-- `'# {:<20}{}\n'.format(label, content)` as a line: `# `, the label
left-justified to 20 columns, then the content. -/
def fmt20 (label content : String) : String :=
  "# " ++ (label ++ String.mk (List.replicate (20 - label.length) ' ')) ++ content

/-- Python `str.center(width, fill)`: CPython puts the extra fill character
computed by `marg / 2 + (marg & width & 1)` on the left. -/
def pyCenter (s : String) (width : Nat) (fill : Char) : String :=
  if s.length ≥ width then s
  else
    let marg := width - s.length
    let left := marg / 2 + (Nat.land (Nat.land marg width) 1)
    String.mk (List.replicate left fill) ++ s ++ String.mk (List.replicate (marg - left) fill)

/-- The `' {scope}.{key} '.center(77, '=')` banner comment line. -/
def bannerLine (scope key : String) : String :=
  "# " ++ pyCenter (" " ++ scope ++ "." ++ key ++ " ") 77 '='

/-- The joined default used for the suggestion line and the `Default:`
comment: for a multi-choice component (`choices` present and `value_type is
tuple`) the default is replaced by `';'.join(component.default)`. -/
def joinedDefault (c : Component) : Except PyErr Value :=
  if c.choices.isSome ∧ c.value_type = ValueType.tuple then do
    let d ← pyJoin c.default
    .ok (Value.str d)
  else .ok c.default

/-- The output lines of `generate`'s component loop body for one component:
fetch the answer via `storage.get(scope, {}).get(key)`; with a `choices`
attribute emit the choices comment block, and for a tuple-typed component
join default and (truthy) answer with `;` and set the separator hint; then
emit either the active `key = value` line (truthy answer) or the commented
suggestion pair, inside the banner/label/description/type/default block. -/
def componentLines (st : Storage) (scope : String) (c : Component) :
    Except PyErr (List String) := do
  let answer0 : Value := ((st.find? scope).getD []).get c.key
  let (default, answer, choicesLines, answerPrefix) ←
    match c.choices with
    | Option.none =>
        pure (c.default, answer0, ([] : List String), ([] : List String))
    | some chs => do
        let cl := "# Available choices:" :: chs.map (fun choice => "# - " ++ choice)
        if c.value_type = ValueType.tuple then do
          let d ← pyJoin c.default
          let a ← if answer0.truthy then do
              let j ← pyJoin answer0
              pure (Value.str j)
            else pure answer0
          pure (Value.str d, a, cl,
            ["#", "# Values are separated by semi-colon \";\""])
        else
          pure (c.default, answer0, cl, ([] : List String))
  let answerLines :=
    if answer.truthy then
      answerPrefix ++ [c.key ++ " = " ++ answer.pyStr]
    else
      answerPrefix ++
        ["# Unanswered question. Uncomment the following line with your answer",
         "# " ++ c.key ++ " = " ++ (if default.truthy then default else Value.str "").pyStr]
  .ok ([bannerLine scope c.key,
        fmt20 "Label:" c.label,
        fmt20 "Description:" c.description,
        fmt20 "Type:" c.value_type.name,
        fmt20 "Default:" default.pyStr]
       ++ choicesLines ++ answerLines ++ [""])

/-- The output lines of `generate` for one dialog: nothing for a dialog
without components, else the section header, the title and reason comments,
and every component's block. -/
def dialogLines (st : Storage) (d : Dialog) : Except PyErr (List String) :=
  if d.components = [] then .ok []
  else do
    let blocks ← d.components.mapM (componentLines st d.scope)
    .ok (["[" ++ d.scope ++ "]",
          fmt20 "Title:" d.title,
          fmt20 "Reason:" d.reason]
         ++ blocks.flatten)

/-- All output lines of `AnswerStore.generate(dialogs, path)`. -/
def generateLines (st : Storage) (dialogs : List Dialog) : Except PyErr (List String) := do
  let ls ← dialogs.mapM (dialogLines st)
  .ok ls.flatten

/-- Concatenate lines into file text, each line terminated by `\n`. -/
def unlines (ls : List String) : String :=
  String.mk (List.flatten (ls.map (fun l => l.data ++ ['\n'])))

/-- The file text written by `AnswerStore.generate(dialogs, path)`. -/
def generate (st : Storage) (dialogs : List Dialog) : Except PyErr String := do
  let ls ← generateLines st dialogs
  .ok (unlines ls)

end AnswerStore

/-! ### Association list lemmas -/

theorem assocFind?_assocSet_self {α : Type} (m : List (String × α)) (k : String) (v : α) :
    assocFind? (assocSet m k v) k = some v := by
  induction m with
  | nil => simp [assocSet, assocFind?]
  | cons hd tl ih =>
      obtain ⟨k', w⟩ := hd
      by_cases h : k' = k
      · simp [assocSet, h, assocFind?]
      · simp [assocSet, h, assocFind?, ih]

theorem assocFind?_assocSet_ne {α : Type} (m : List (String × α)) (k k' : String) (v : α)
    (h : k' ≠ k) : assocFind? (assocSet m k v) k' = assocFind? m k' := by
  induction m with
  | nil => simp [assocSet, assocFind?, Ne.symm h]
  | cons hd tl ih =>
      obtain ⟨k'', w⟩ := hd
      by_cases hk : k'' = k
      · subst hk
        simp [assocSet, assocFind?, Ne.symm h]
      · simp only [assocSet, if_neg hk, assocFind?]
        by_cases hk' : k'' = k'
        · simp [hk']
        · simp [hk', ih]

theorem assocSet_eq_self {α : Type} (m : List (String × α)) (k : String) (v : α)
    (h : assocFind? m k = some v) : assocSet m k v = m := by
  induction m with
  | nil => simp [assocFind?] at h
  | cons hd tl ih =>
      obtain ⟨k', w⟩ := hd
      by_cases hk : k' = k
      · subst hk
        simp [assocFind?] at h
        simp [assocSet, h]
      · simp [assocFind?, hk] at h
        simp [assocSet, hk, ih h]

theorem assocSet_assocSet {α : Type} (m : List (String × α)) (k : String) (v w : α) :
    assocSet (assocSet m k v) k w = assocSet m k w := by
  induction m with
  | nil => simp [assocSet]
  | cons hd tl ih =>
      obtain ⟨k', u⟩ := hd
      by_cases hk : k' = k
      · simp [assocSet, hk]
      · simp [assocSet, hk, ih]

theorem assocSet_ne_nil {α : Type} (m : List (String × α)) (k : String) (v : α) :
    assocSet m k v ≠ [] := by
  cases m with
  | nil => simp [assocSet]
  | cons hd tl =>
      obtain ⟨k', w⟩ := hd
      by_cases hk : k' = k <;> simp [assocSet, hk]

theorem Entry.find?_set_self (e : Entry) (k : String) (v : Value) :
    (e.set k v).find? k = some v :=
  assocFind?_assocSet_self e k v

theorem Entry.find?_set_ne (e : Entry) (k k' : String) (v : Value) (h : k' ≠ k) :
    (e.set k v).find? k' = e.find? k' :=
  assocFind?_assocSet_ne e k k' v h

theorem Entry.get_set_self (e : Entry) (k : String) (v : Value) :
    (e.set k v).get k = v := by
  unfold Entry.get
  rw [show assocFind? (e.set k v) k = (e.set k v).find? k from rfl, Entry.find?_set_self]
  rfl

theorem Entry.set_eq_self (e : Entry) (k : String) (v : Value)
    (h : e.find? k = some v) : e.set k v = e :=
  assocSet_eq_self e k v h

theorem Storage.find?_set_same (st : Storage) (s : String) (e : Entry) :
    (st.set s e).find? s = some e :=
  assocFind?_assocSet_self st s e

theorem Storage.find?_set_other (st : Storage) (s s' : String) (e : Entry) (h : s' ≠ s) :
    (st.set s e).find? s' = st.find? s' :=
  assocFind?_assocSet_ne st s s' e h

/-! ### Dialog discovery -/

theorem foldl_extend {α β : Type} (f : β → List α) (l : List β) (a : List α) :
    l.foldl (fun acc x => acc ++ f x) a = a ++ l.flatMap f := by
  induction l generalizing a with
  | nil => simp
  | cons x xs ih => simp [List.foldl_cons, ih]

/-- C4: `_get_dialogs` returns the concatenation, in phase order then stage
order (excluding stage index 0 of every phase) then actor order, of all
dialogs of all actors; in particular a workflow with phases
`[P1:[stage0, stage1], P2:[stage0]]` yields exactly the dialogs of
`P1.stage1`'s actors. -/
theorem claimC4_dialog_discovery :
    (∀ w : Workflow, AnswerStore._get_dialogs w =
      w.phase_actors.flatMap (fun phase =>
        (phase.drop 1).flatMap (fun stage => stage.actors.flatMap Actor.dialogs))) ∧
    (∀ s0 s1 t0 : Stage,
      AnswerStore._get_dialogs ⟨[[s0, s1], [t0]]⟩ = s1.actors.flatMap Actor.dialogs) := by
  have h : ∀ w : Workflow, AnswerStore._get_dialogs w =
      w.phase_actors.flatMap (fun phase =>
        (phase.drop 1).flatMap (fun stage => stage.actors.flatMap Actor.dialogs)) := by
    intro w
    unfold AnswerStore._get_dialogs
    simp only [foldl_extend]
    simp
  exact ⟨h, fun s0 s1 t0 => by simp [h]⟩

/-! ### answer / get -/

/-- C3: for a scope not previously set, `get` returns the supplied fallback;
and after `answer(S, K, V)` on any prior storage state, `get(S)` returns an
entry whose value at key `K` is `V`. -/
theorem claimC3_get_answer :
    (∀ (st : Storage) (S : String) (fb : Option Entry),
      st.find? S = Option.none → AnswerStore.get st S fb = fb) ∧
    (∀ (st : Storage) (S K : String) (V : Value),
      ∃ e : Entry, AnswerStore.get (AnswerStore.answer st S K V) S Option.none = some e ∧
        e.find? K = some V ∧ e.get K = V) := by
  constructor
  · intro st S fb h
    unfold AnswerStore.get
    rw [h]
  · intro st S K V
    refine ⟨((st.find? S).getD []).set K V, ?_, ?_, ?_⟩
    · unfold AnswerStore.get AnswerStore.answer
      rw [Storage.find?_set_same]
    · exact Entry.find?_set_self _ K V
    · exact Entry.get_set_self _ K V

theorem claimC3_witness :
    AnswerStore.get [] "scope" Option.none = Option.none ∧
    (∃ e : Entry,
      AnswerStore.get (AnswerStore.answer [] "scope" "key" (Value.int 3)) "scope"
        Option.none = some e ∧ e.find? "key" = some (Value.int 3) ∧
        e.get "key" = Value.int 3) :=
  ⟨claimC3_get_answer.1 [] "scope" Option.none rfl,
   claimC3_get_answer.2 [] "scope" "key" (Value.int 3)⟩

/-! ### Per-type coercion claims -/

theorem AnswerStore.translateComponent_ok (e : Entry) (c : Component) (s : String)
    (e' : Entry) (hv : e.find? c.key = some (Value.str s))
    (hb : AnswerStore.applyBranch c e s = .ok e') :
    AnswerStore.translateComponent e c = .ok (e', { c with value := e'.get c.key }) := by
  unfold AnswerStore.translateComponent
  simp only [hv, hb]
  rfl

theorem AnswerStore.translateComponent_err (e : Entry) (c : Component) (s : String)
    (err : PyErr) (hv : e.find? c.key = some (Value.str s))
    (hb : AnswerStore.applyBranch c e s = .error err) :
    AnswerStore.translateComponent e c = .error err := by
  unfold AnswerStore.translateComponent
  simp only [hv, hb]
  rfl

theorem Entry.get_eq_find (e : Entry) (k : String) :
    e.get k = (e.find? k).getD Value.none := rfl

/-- C8: for a bool-typed component whose stored value is a raw string, the
value (entry slot and component slot) becomes `True` iff the lowercased
string equals `"true"`; `"True"`, `"TRUE"`, `"true"` lower to `"true"` while
`""`, `"false"`, `"yes"` do not. -/
theorem claimC8_bool_coercion (e : Entry) (c : Component) (s : String)
    (ht : c.value_type = ValueType.bool) (hv : e.find? c.key = some (Value.str s)) :
    AnswerStore.translateComponent e c =
      .ok (e.set c.key (Value.bool (pyLower s = "true")),
           { c with value := Value.bool (pyLower s = "true") }) ∧
    (pyLower "True" = "true" ∧ pyLower "TRUE" = "true" ∧ pyLower "true" = "true") ∧
    (pyLower "" ≠ "true" ∧ pyLower "false" ≠ "true" ∧ pyLower "yes" ≠ "true") := by
  refine ⟨?_, by constructor <;> decide, by refine ⟨?_, ?_, ?_⟩ <;> decide⟩
  have hb : AnswerStore.applyBranch c e s =
      .ok (e.set c.key (Value.bool (pyLower s = "true"))) := by
    unfold AnswerStore.applyBranch; rw [ht]
  rw [AnswerStore.translateComponent_ok e c s _ hv hb, Entry.get_set_self]

def cBoolW : Component :=
  ⟨"confirm", "", "", ValueType.bool, Value.none, Option.none, Value.none⟩

theorem claimC8_witness :
    AnswerStore.translateComponent [("confirm", Value.str "TRUE")] cBoolW =
      .ok ([("confirm", Value.bool true)], { cBoolW with value := Value.bool true }) ∧
    AnswerStore.translateComponent [("confirm", Value.str "yes")] cBoolW =
      .ok ([("confirm", Value.bool false)], { cBoolW with value := Value.bool false }) := by
  constructor
  · exact (claimC8_bool_coercion [("confirm", Value.str "TRUE")] cBoolW "TRUE" rfl rfl).1
  · exact (claimC8_bool_coercion [("confirm", Value.str "yes")] cBoolW "yes" rfl rfl).1

/-- C5: for an int-typed component whose stored value is a raw string, the
value becomes the parsed integer when `int()` succeeds; when it does not, the
`ValueError` is not caught in the loop and `translate` itself returns it
unmodified to the caller. -/
theorem claimC5_int_coercion (e : Entry) (c : Component) (s : String)
    (ht : c.value_type = ValueType.int) (hv : e.find? c.key = some (Value.str s)) :
    (∀ n : Int, pyInt? s = some n →
      AnswerStore.translateComponent e c =
        .ok (e.set c.key (Value.int n), { c with value := Value.int n })) ∧
    (pyInt? s = Option.none →
      AnswerStore.translateComponent e c = .error PyErr.valueError) ∧
    (∀ (st : Storage) (d : Dialog),
      st.find? d.scope = some e → e ≠ [] → d.components = [c] →
      pyInt? s = Option.none →
      AnswerStore.translate st d = .error PyErr.valueError) := by
  have hcomp : ∀ r, pyInt? s = r →
      AnswerStore.translateComponent e c =
        (match r with
         | some n => .ok (e.set c.key (Value.int n), { c with value := Value.int n })
         | Option.none => .error PyErr.valueError) := by
    intro r hr
    cases r with
    | none =>
        exact AnswerStore.translateComponent_err e c s _ hv
          (by unfold AnswerStore.applyBranch; rw [ht, hr])
    | some n =>
        rw [AnswerStore.translateComponent_ok e c s _ hv
          (by unfold AnswerStore.applyBranch; rw [ht, hr]), Entry.get_set_self]
  refine ⟨fun n hn => hcomp (some n) hn, fun hn => hcomp Option.none hn, ?_⟩
  intro st d hst hne hcs hn
  unfold AnswerStore.translate
  simp only [hst]
  rw [if_neg hne, hcs]
  unfold AnswerStore.translateLoop
  rw [hcomp Option.none hn]
  rfl

def cIntW : Component :=
  ⟨"count", "", "", ValueType.int, Value.none, Option.none, Value.none⟩

def dIntW : Dialog := ⟨"scope", "", "", [cIntW]⟩

theorem claimC5_witness :
    AnswerStore.translateComponent [("count", Value.str "42")] cIntW =
      .ok ([("count", Value.int 42)], { cIntW with value := Value.int 42 }) ∧
    AnswerStore.translate [("scope", [("count", Value.str "abc")])] dIntW =
      .error PyErr.valueError := by
  constructor
  · exact (claimC5_int_coercion [("count", Value.str "42")] cIntW "42" rfl rfl).1 42 (by decide)
  · exact (claimC5_int_coercion [("count", Value.str "abc")] cIntW "abc" rfl rfl).2.2
      [("scope", [("count", Value.str "abc")])] dIntW rfl (by decide) rfl (by decide)

/-- C6: for a tuple-typed (multi-choice) component whose stored value is a
raw string, the string is split on `;`, treated as a set, and intersected
with the component's allowed choices: the resulting tuple contains an element
exactly when it occurs in the split and in the choices (elements outside the
declared choice set are silently dropped), with no duplicates. -/
theorem claimC6_multichoice (e : Entry) (c : Component) (s : String) (chs : List String)
    (ht : c.value_type = ValueType.tuple) (hc : c.choices = some chs)
    (hv : e.find? c.key = some (Value.str s)) :
    AnswerStore.translateComponent e c =
      .ok (e.set c.key
            (Value.tuple ((splitCh ';' s).dedup.filter (fun x => decide (x ∈ chs)))),
           { c with value :=
              Value.tuple ((splitCh ';' s).dedup.filter (fun x => decide (x ∈ chs))) }) ∧
    ((splitCh ';' s).dedup.filter (fun x => decide (x ∈ chs))).Nodup ∧
    (∀ x : String,
      x ∈ (splitCh ';' s).dedup.filter (fun x => decide (x ∈ chs)) ↔
        x ∈ splitCh ';' s ∧ x ∈ chs) := by
  refine ⟨?_, ?_, ?_⟩
  · have hb : AnswerStore.applyBranch c e s =
        .ok (e.set c.key
          (Value.tuple ((splitCh ';' s).dedup.filter (fun x => decide (x ∈ chs))))) := by
      unfold AnswerStore.applyBranch
      rw [ht, hc]
    rw [AnswerStore.translateComponent_ok e c s _ hv hb, Entry.get_set_self]
  · exact (List.nodup_dedup _).filter _
  · intro x
    simp [List.mem_filter, List.mem_dedup]

def cTupW : Component :=
  ⟨"opts", "", "", ValueType.tuple, Value.tuple [], some ["a", "b"], Value.none⟩

theorem claimC6_witness :
    AnswerStore.translateComponent [("opts", Value.str "a;b;c")] cTupW =
      .ok ([("opts", Value.tuple ["a", "b"])],
           { cTupW with value := Value.tuple ["a", "b"] }) ∧
    (∀ x : String, x ∈ ["a", "b"] ↔ x ∈ splitCh ';' "a;b;c" ∧ x ∈ ["a", "b"]) := by
  have h := claimC6_multichoice [("opts", Value.str "a;b;c")] cTupW "a;b;c" ["a", "b"]
    rfl rfl rfl
  refine ⟨?_, ?_⟩
  · have h1 := h.1
    rwa [show (splitCh ';' "a;b;c").dedup.filter (fun x => decide (x ∈ ["a", "b"])) =
        ["a", "b"] from by decide] at h1
  · intro x
    have h3 := h.2.2 x
    rwa [show (splitCh ';' "a;b;c").dedup.filter (fun x => decide (x ∈ ["a", "b"])) =
        ["a", "b"] from by decide] at h3

/-- C7: for a component that is not bool/int/tuple typed but declares a
restricted choice set, a raw string value is kept only when it is a member of
that set and otherwise becomes `None`; in both cases the loop body returns
successfully (the discard is silent). -/
theorem claimC7_choice_restricted (e : Entry) (c : Component) (s : String)
    (chs : List String)
    (ht : c.value_type = ValueType.str) (hc : c.choices = some chs)
    (hv : e.find? c.key = some (Value.str s)) :
    AnswerStore.translateComponent e c =
      .ok (e.set c.key (if s ∈ chs then Value.str s else Value.none),
           { c with value := if s ∈ chs then Value.str s else Value.none }) := by
  have hb : AnswerStore.applyBranch c e s =
      .ok (e.set c.key (if s ∈ chs then Value.str s else Value.none)) := by
    unfold AnswerStore.applyBranch
    rw [ht, hc]
  rw [AnswerStore.translateComponent_ok e c s _ hv hb, Entry.get_set_self]

def cChoiceW : Component :=
  ⟨"mode", "", "", ValueType.str, Value.none, some ["fast", "safe"], Value.none⟩

theorem claimC7_witness :
    AnswerStore.translateComponent [("mode", Value.str "bogus")] cChoiceW =
      .ok ([("mode", Value.none)], { cChoiceW with value := Value.none }) ∧
    AnswerStore.translateComponent [("mode", Value.str "fast")] cChoiceW =
      .ok ([("mode", Value.str "fast")], { cChoiceW with value := Value.str "fast" }) := by
  constructor
  · have h := claimC7_choice_restricted [("mode", Value.str "bogus")] cChoiceW "bogus"
      ["fast", "safe"] rfl rfl rfl
    rwa [if_neg (by decide)] at h
  · have h := claimC7_choice_restricted [("mode", Value.str "fast")] cChoiceW "fast"
      ["fast", "safe"] rfl rfl rfl
    rwa [if_pos (by decide)] at h

/-! ### C1: when the value slot is written -/

theorem AnswerStore.translateComponent_skip (e : Entry) (c : Component)
    (h : ∀ s : String, e.find? c.key ≠ some (Value.str s)) :
    AnswerStore.translateComponent e c = .ok (e, c) := by
  unfold AnswerStore.translateComponent
  cases hf : e.find? c.key with
  | none => rfl
  | some v =>
      cases v with
      | str s => exact absurd hf (h s)
      | bool b => rfl
      | int i => rfl
      | tuple xs => rfl
      | none => rfl

/-- C1 (amended): during the component loop of `translate`, the component's
`value` slot is written (to `entry.get(key)` after coercion) exactly for the
components whose key is present in the entry with a raw-string value; every
other component — key absent, or value already typed — is returned untouched,
`value` slot included. -/
theorem claimC1_value_assignment (e : Entry) (c : Component) :
    ((∀ s : String, e.find? c.key ≠ some (Value.str s)) →
      AnswerStore.translateComponent e c = .ok (e, c)) ∧
    (∀ (s : String) (e' : Entry) (c' : Component),
      e.find? c.key = some (Value.str s) →
      AnswerStore.translateComponent e c = .ok (e', c') →
      c' = { c with value := e'.get c.key }) := by
  constructor
  · exact AnswerStore.translateComponent_skip e c
  · intro s e' c' hv htr
    cases hb : AnswerStore.applyBranch c e s with
    | error err =>
        rw [AnswerStore.translateComponent_err e c s err hv hb] at htr
        exact absurd htr (by simp)
    | ok e₁ =>
        rw [AnswerStore.translateComponent_ok e c s e₁ hv hb] at htr
        obtain ⟨h1, h2⟩ := Prod.mk.injEq .. ▸ Except.ok.inj htr
        rw [← h1, ← h2]

theorem claimC1_witness :
    AnswerStore.translateComponent [("other", Value.str "x")]
        ⟨"k", "", "", ValueType.str, Value.none, Option.none, Value.str "sentinel"⟩ =
      .ok ([("other", Value.str "x")],
        ⟨"k", "", "", ValueType.str, Value.none, Option.none, Value.str "sentinel"⟩) :=
  (claimC1_value_assignment [("other", Value.str "x")]
    ⟨"k", "", "", ValueType.str, Value.none, Option.none, Value.str "sentinel"⟩).1
    (fun s h => by simp [Entry.find?, assocFind?] at h)

def cC1x : Component :=
  ⟨"k", "", "", ValueType.str, Value.none, Option.none, Value.str "sentinel"⟩

def dC1x : Dialog := ⟨"s", "", "", [cC1x]⟩

def stC1x : Storage := [("s", [("other", Value.str "x")])]

/-- C1 counterexample: for a dialog whose scope has a non-empty entry, a
component whose key is absent from the entry keeps its previous `value` slot
(`"sentinel"`) after `translate`; the claim says the slot would be written to
`entry.get(key) = None` for every component. -/
theorem claimC1_counterexample :
    AnswerStore.translate stC1x dC1x = .ok (stC1x, dC1x) ∧
    cC1x.value = Value.str "sentinel" ∧
    (Entry.get [("other", Value.str "x")] "k" = Value.none) ∧
    Value.str "sentinel" ≠ Value.none := by
  refine ⟨rfl, rfl, rfl, by decide⟩

/-! ### C9: idempotence of translate -/

/-- Whether a stored value is still a raw string (`isinstance(v, str)`). -/
def Value.isStr : Value → Bool
  | .str _ => true
  | _ => false

theorem AnswerStore.applyBranch_value_irrel (c : Component) (x : Value) (e : Entry)
    (s : String) :
    AnswerStore.applyBranch { c with value := x } e s = AnswerStore.applyBranch c e s := by
  cases c
  rfl

theorem AnswerStore.translateComponent_fields (e : Entry) (c : Component) (e₁ : Entry)
    (c₁ : Component) (h : AnswerStore.translateComponent e c = .ok (e₁, c₁)) :
    c₁.key = c.key ∧ c₁.value_type = c.value_type ∧ c₁.choices = c.choices := by
  cases hf : e.find? c.key with
  | none =>
      rw [AnswerStore.translateComponent_skip e c (by intro s hs; rw [hf] at hs; cases hs)]
        at h
      obtain ⟨-, h2⟩ := Prod.mk.injEq .. ▸ Except.ok.inj h
      rw [← h2]
      exact ⟨rfl, rfl, rfl⟩
  | some v =>
      cases v with
      | str s =>
          cases hb : AnswerStore.applyBranch c e s with
          | error err =>
              rw [AnswerStore.translateComponent_err e c s err hf hb] at h
              exact absurd h (by simp)
          | ok e₂ =>
              rw [AnswerStore.translateComponent_ok e c s e₂ hf hb] at h
              obtain ⟨-, h2⟩ := Prod.mk.injEq .. ▸ Except.ok.inj h
              rw [← h2]
              exact ⟨rfl, rfl, rfl⟩
      | bool b =>
          rw [AnswerStore.translateComponent_skip e c
            (by intro s hs; rw [hf] at hs; cases hs)] at h
          obtain ⟨-, h2⟩ := Prod.mk.injEq .. ▸ Except.ok.inj h
          rw [← h2]; exact ⟨rfl, rfl, rfl⟩
      | int i =>
          rw [AnswerStore.translateComponent_skip e c
            (by intro s hs; rw [hf] at hs; cases hs)] at h
          obtain ⟨-, h2⟩ := Prod.mk.injEq .. ▸ Except.ok.inj h
          rw [← h2]; exact ⟨rfl, rfl, rfl⟩
      | tuple xs =>
          rw [AnswerStore.translateComponent_skip e c
            (by intro s hs; rw [hf] at hs; cases hs)] at h
          obtain ⟨-, h2⟩ := Prod.mk.injEq .. ▸ Except.ok.inj h
          rw [← h2]; exact ⟨rfl, rfl, rfl⟩
      | none =>
          rw [AnswerStore.translateComponent_skip e c
            (by intro s hs; rw [hf] at hs; cases hs)] at h
          obtain ⟨-, h2⟩ := Prod.mk.injEq .. ▸ Except.ok.inj h
          rw [← h2]; exact ⟨rfl, rfl, rfl⟩

/-- Any successful coercion writes a single value at the component's key, and
that value is either no longer a raw string or the very same string. -/
theorem AnswerStore.applyBranch_shape (c : Component) (e : Entry) (s : String) (e' : Entry)
    (hv : e.find? c.key = some (Value.str s))
    (hb : AnswerStore.applyBranch c e s = .ok e') :
    ∃ v : Value, e' = e.set c.key v ∧ (v.isStr = false ∨ v = Value.str s) := by
  cases ht : c.value_type with
  | bool =>
      have hcomp : AnswerStore.applyBranch c e s =
          .ok (e.set c.key (Value.bool (pyLower s = "true"))) := by
        unfold AnswerStore.applyBranch; rw [ht]
      rw [hcomp] at hb
      exact ⟨_, (Except.ok.inj hb).symm, Or.inl rfl⟩
  | int =>
      cases hn : pyInt? s with
      | none =>
          have hcomp : AnswerStore.applyBranch c e s = .error PyErr.valueError := by
            unfold AnswerStore.applyBranch; rw [ht, hn]
          rw [hcomp] at hb
          exact absurd hb (by simp)
      | some n =>
          have hcomp : AnswerStore.applyBranch c e s = .ok (e.set c.key (Value.int n)) := by
            unfold AnswerStore.applyBranch; rw [ht, hn]
          rw [hcomp] at hb
          exact ⟨_, (Except.ok.inj hb).symm, Or.inl rfl⟩
  | tuple =>
      cases hc : c.choices with
      | none =>
          have hcomp : AnswerStore.applyBranch c e s = .error PyErr.attributeError := by
            unfold AnswerStore.applyBranch; rw [ht, hc]
          rw [hcomp] at hb
          exact absurd hb (by simp)
      | some chs =>
          have hcomp : AnswerStore.applyBranch c e s =
              .ok (e.set c.key
                (Value.tuple ((splitCh ';' s).dedup.filter (fun x => decide (x ∈ chs))))) := by
            unfold AnswerStore.applyBranch; rw [ht, hc]
          rw [hcomp] at hb
          exact ⟨_, (Except.ok.inj hb).symm, Or.inl rfl⟩
  | str =>
      cases hc : c.choices with
      | none =>
          have hcomp : AnswerStore.applyBranch c e s = .ok e := by
            unfold AnswerStore.applyBranch; rw [ht, hc]
          rw [hcomp] at hb
          refine ⟨Value.str s, ?_, Or.inr rfl⟩
          rw [Entry.set_eq_self e c.key _ hv]
          exact (Except.ok.inj hb).symm
      | some chs =>
          by_cases hs : s ∈ chs
          · have hcomp : AnswerStore.applyBranch c e s =
                .ok (e.set c.key (Value.str s)) := by
              unfold AnswerStore.applyBranch; rw [ht, hc]; simp [hs]
            rw [hcomp] at hb
            exact ⟨Value.str s, (Except.ok.inj hb).symm, Or.inr rfl⟩
          · have hcomp : AnswerStore.applyBranch c e s =
                .ok (e.set c.key Value.none) := by
              unfold AnswerStore.applyBranch; rw [ht, hc]; simp [hs]
            rw [hcomp] at hb
            exact ⟨Value.none, (Except.ok.inj hb).symm, Or.inl rfl⟩

theorem exceptBind_ok {α β : Type} (a : α) (f : α → Except PyErr β) :
    (Except.ok a : Except PyErr α) >>= f = f a := rfl

theorem exceptBind_err {α β : Type} (err : PyErr) (f : α → Except PyErr β) :
    (Except.error err : Except PyErr α) >>= f = Except.error err := rfl

theorem AnswerStore.translateComponent_of_not_str (e : Entry) (c : Component) (e₁ : Entry)
    (c₁ : Component) (h : AnswerStore.translateComponent e c = .ok (e₁, c₁))
    (hns : ∀ s : String, e.find? c.key ≠ some (Value.str s)) : e₁ = e ∧ c₁ = c := by
  rw [AnswerStore.translateComponent_skip e c hns] at h
  obtain ⟨h1, h2⟩ := Prod.mk.injEq .. ▸ Except.ok.inj h
  exact ⟨h1.symm, h2.symm⟩

theorem AnswerStore.translateComponent_of_str (e : Entry) (c : Component) (e₁ : Entry)
    (c₁ : Component) (s : String) (hv : e.find? c.key = some (Value.str s))
    (h : AnswerStore.translateComponent e c = .ok (e₁, c₁)) :
    AnswerStore.applyBranch c e s = .ok e₁ ∧ c₁ = { c with value := e₁.get c.key } := by
  cases hb : AnswerStore.applyBranch c e s with
  | error err =>
      rw [AnswerStore.translateComponent_err e c s err hv hb] at h
      exact absurd h (by simp)
  | ok e₂ =>
      rw [AnswerStore.translateComponent_ok e c s e₂ hv hb] at h
      have h' := Except.ok.inj h
      have h1 : e₂ = e₁ := congrArg Prod.fst h'
      have h2 : ({ c with value := e₂.get c.key } : Component) = c₁ := congrArg Prod.snd h'
      subst h1
      exact ⟨rfl, h2.symm⟩

/-- One loop step either leaves a key's stored value unchanged or turns a
raw-string value into a non-string one. -/
theorem AnswerStore.translateComponent_evolve (e : Entry) (c : Component) (e₁ : Entry)
    (c₁ : Component) (h : AnswerStore.translateComponent e c = .ok (e₁, c₁)) (k : String) :
    e₁.find? k = e.find? k ∨
    (∃ (s : String) (v : Value), e.find? k = some (Value.str s) ∧
      e₁.find? k = some v ∧ v.isStr = false) := by
  by_cases hstr : ∃ s : String, e.find? c.key = some (Value.str s)
  · obtain ⟨s, hv⟩ := hstr
    obtain ⟨hb, -⟩ := AnswerStore.translateComponent_of_str e c e₁ c₁ s hv h
    obtain ⟨v, he₁, hdisj⟩ := AnswerStore.applyBranch_shape c e s e₁ hv hb
    by_cases hk : k = c.key
    · subst hk
      cases hdisj with
      | inl hns =>
          right
          exact ⟨s, v, hv, by rw [he₁]; exact Entry.find?_set_self e c.key v, hns⟩
      | inr hvs =>
          left
          rw [he₁, hvs, Entry.set_eq_self e c.key _ hv]
    · left
      rw [he₁]
      exact Entry.find?_set_ne e c.key k v hk
  · obtain ⟨he₁, -⟩ :=
      AnswerStore.translateComponent_of_not_str e c e₁ c₁ h (fun s hs => hstr ⟨s, hs⟩)
    left
    rw [he₁]

/-- If a coercion kept the stored value a raw string, re-running the same
component's coercion on any entry holding that string is the identity. -/
theorem AnswerStore.applyBranch_again (c : Component) (e : Entry) (s : String) (e₁ : Entry)
    (_hv : e.find? c.key = some (Value.str s))
    (hb : AnswerStore.applyBranch c e s = .ok e₁)
    (hstr : e₁.find? c.key = some (Value.str s)) :
    ∀ f : Entry, f.find? c.key = some (Value.str s) → AnswerStore.applyBranch c f s = .ok f := by
  intro f hf
  cases ht : c.value_type with
  | bool =>
      have hcomp : AnswerStore.applyBranch c e s =
          .ok (e.set c.key (Value.bool (pyLower s = "true"))) := by
        unfold AnswerStore.applyBranch; rw [ht]
      rw [hcomp] at hb
      rw [← Except.ok.inj hb, Entry.find?_set_self] at hstr
      cases hstr
  | int =>
      cases hn : pyInt? s with
      | none =>
          have hcomp : AnswerStore.applyBranch c e s = .error PyErr.valueError := by
            unfold AnswerStore.applyBranch; rw [ht, hn]
          rw [hcomp] at hb
          cases hb
      | some n =>
          have hcomp : AnswerStore.applyBranch c e s = .ok (e.set c.key (Value.int n)) := by
            unfold AnswerStore.applyBranch; rw [ht, hn]
          rw [hcomp] at hb
          rw [← Except.ok.inj hb, Entry.find?_set_self] at hstr
          cases hstr
  | tuple =>
      cases hc : c.choices with
      | none =>
          have hcomp : AnswerStore.applyBranch c e s = .error PyErr.attributeError := by
            unfold AnswerStore.applyBranch; rw [ht, hc]
          rw [hcomp] at hb
          cases hb
      | some chs =>
          have hcomp : AnswerStore.applyBranch c e s =
              .ok (e.set c.key
                (Value.tuple ((splitCh ';' s).dedup.filter (fun x => decide (x ∈ chs))))) := by
            unfold AnswerStore.applyBranch; rw [ht, hc]
          rw [hcomp] at hb
          rw [← Except.ok.inj hb, Entry.find?_set_self] at hstr
          cases hstr
  | str =>
      cases hc : c.choices with
      | none =>
          have hcomp : AnswerStore.applyBranch c f s = .ok f := by
            unfold AnswerStore.applyBranch; rw [ht, hc]
          exact hcomp
      | some chs =>
          by_cases hs : s ∈ chs
          · have hcomp : AnswerStore.applyBranch c f s =
                .ok (f.set c.key (Value.str s)) := by
              unfold AnswerStore.applyBranch; rw [ht, hc]; simp [hs]
            rw [hcomp, Entry.set_eq_self f c.key _ hf]
          · have hcomp : AnswerStore.applyBranch c e s =
                .ok (e.set c.key Value.none) := by
              unfold AnswerStore.applyBranch; rw [ht, hc]; simp [hs]
            rw [hcomp] at hb
            rw [← Except.ok.inj hb, Entry.find?_set_self] at hstr
            cases hstr

/-- A component already processed by the loop stays fixed when processed
again, provided the entry evolved from the processed one only by
string-to-non-string coercions at its key. -/
theorem AnswerStore.translateComponent_stable (e : Entry) (c : Component) (e₁ : Entry)
    (c₁ : Component) (e' : Entry)
    (h : AnswerStore.translateComponent e c = .ok (e₁, c₁))
    (hev : e'.find? c.key = e₁.find? c.key ∨
      (∃ (s : String) (v : Value), e₁.find? c.key = some (Value.str s) ∧
        e'.find? c.key = some v ∧ v.isStr = false)) :
    AnswerStore.translateComponent e' c₁ = .ok (e', c₁) := by
  by_cases hstr : ∃ s : String, e.find? c.key = some (Value.str s)
  · obtain ⟨s, hv⟩ := hstr
    obtain ⟨hb, hc₁⟩ := AnswerStore.translateComponent_of_str e c e₁ c₁ s hv h
    obtain ⟨v, he₁, hdisj⟩ := AnswerStore.applyBranch_shape c e s e₁ hv hb
    have hkey : c₁.key = c.key := by rw [hc₁]
    have hfind₁ : e₁.find? c.key = some v := by rw [he₁]; exact Entry.find?_set_self e c.key v
    cases hdisj with
    | inl hns =>
        -- the processed value is no longer a string: both evolution cases
        -- leave a non-string at the key, so the second pass skips.
        cases hev with
        | inl heq =>
            refine AnswerStore.translateComponent_skip e' c₁ (fun s' hs' => ?_)
            rw [hkey, heq, hfind₁] at hs'
            rw [Option.some.inj hs'] at hns
            simp [Value.isStr] at hns
        | inr hex =>
            obtain ⟨s₂, v₂, hstr₂, -, -⟩ := hex
            rw [hfind₁] at hstr₂
            rw [Option.some.inj hstr₂] at hns
            simp [Value.isStr] at hns
    | inr hvs =>
        -- the processed value is the same raw string: on the second pass
        -- either the key still holds that string (and the coercion is the
        -- identity), or a later component replaced it by a non-string
        -- (and the second pass skips).
        subst hvs
        cases hev with
        | inr hex =>
            obtain ⟨s₂, v₂, hstr₂, hfind', hns₂⟩ := hex
            refine AnswerStore.translateComponent_skip e' c₁ (fun s' hs' => ?_)
            rw [hkey, hfind'] at hs'
            rw [Option.some.inj hs'] at hns₂
            simp [Value.isStr] at hns₂
        | inl heq =>
            have hv' : e'.find? c₁.key = some (Value.str s) := by
              rw [hkey, heq, hfind₁]
            have hb' : AnswerStore.applyBranch c₁ e' s = .ok e' := by
              have hirr : AnswerStore.applyBranch c₁ e' s =
                  AnswerStore.applyBranch c e' s := by
                rw [hc₁]
                exact AnswerStore.applyBranch_value_irrel c (e₁.get c.key) e' s
              rw [hirr]
              exact AnswerStore.applyBranch_again c e s e₁ hv hb hfind₁ e' (hkey ▸ hv')
            rw [AnswerStore.translateComponent_ok e' c₁ s e' hv' hb']
            have hval : e'.get c₁.key = c₁.value := by
              rw [Entry.get_eq_find, hv', hc₁]
              have hgv : e₁.get c.key = Value.str s := by
                rw [Entry.get_eq_find, hfind₁]
                rfl
              rw [hgv]
              rfl
            rw [hval]
  · obtain ⟨he₁, hc₁⟩ :=
      AnswerStore.translateComponent_of_not_str e c e₁ c₁ h (fun s hs => hstr ⟨s, hs⟩)
    subst he₁
    subst hc₁
    refine AnswerStore.translateComponent_skip e' c₁ (fun s' hs' => ?_)
    cases hev with
    | inl heq =>
        rw [heq] at hs'
        exact hstr ⟨s', hs'⟩
    | inr hex =>
        obtain ⟨s₂, v₂, hstr₂, -, -⟩ := hex
        exact hstr ⟨s₂, hstr₂⟩

theorem AnswerStore.translateLoop_cons_ok (e : Entry) (c : Component) (cs : List Component)
    (e₁ : Entry) (c₁ : Component) (e₂ : Entry) (cs₂ : List Component)
    (h₁ : AnswerStore.translateComponent e c = .ok (e₁, c₁))
    (h₂ : AnswerStore.translateLoop e₁ cs = .ok (e₂, cs₂)) :
    AnswerStore.translateLoop e (c :: cs) = .ok (e₂, c₁ :: cs₂) := by
  unfold AnswerStore.translateLoop
  rw [h₁, exceptBind_ok]
  show (do
    let x ← AnswerStore.translateLoop e₁ cs
    Except.ok (x.1, c₁ :: x.2) : Except PyErr (Entry × List Component)) = _
  rw [h₂, exceptBind_ok]

theorem AnswerStore.translateLoop_cons_inv (e : Entry) (c : Component)
    (cs : List Component) (e' : Entry) (cs' : List Component)
    (h : AnswerStore.translateLoop e (c :: cs) = .ok (e', cs')) :
    ∃ (e₁ : Entry) (c₁ : Component) (cs₂ : List Component),
      AnswerStore.translateComponent e c = .ok (e₁, c₁) ∧
      AnswerStore.translateLoop e₁ cs = .ok (e', cs₂) ∧ cs' = c₁ :: cs₂ := by
  cases h₁ : AnswerStore.translateComponent e c with
  | error err =>
      unfold AnswerStore.translateLoop at h
      rw [h₁, exceptBind_err] at h
      cases h
  | ok p =>
      obtain ⟨e₁, c₁⟩ := p
      cases h₂ : AnswerStore.translateLoop e₁ cs with
      | error err =>
          unfold AnswerStore.translateLoop at h
          rw [h₁, exceptBind_ok] at h
          revert h
          show (do
            let x ← AnswerStore.translateLoop e₁ cs
            Except.ok (x.1, c₁ :: x.2) : Except PyErr (Entry × List Component)) = _ → _
          rw [h₂, exceptBind_err]
          intro h
          cases h
      | ok q =>
          obtain ⟨e₂, cs₂⟩ := q
          rw [AnswerStore.translateLoop_cons_ok e c cs e₁ c₁ e₂ cs₂ h₁ h₂] at h
          have h' := Except.ok.inj h
          rw [Prod.mk.injEq] at h'
          obtain ⟨h1, h2⟩ := h'
          exact ⟨e₁, c₁, cs₂, rfl, by rw [h1] at h₂; exact h₂, h2.symm⟩

/-- Entry evolution across a whole loop run: each key is unchanged or went
from a raw string to a non-string. -/
theorem AnswerStore.translateLoop_evolve (cs : List Component) (e e' : Entry)
    (cs' : List Component)
    (h : AnswerStore.translateLoop e cs = .ok (e', cs')) (k : String) :
    e'.find? k = e.find? k ∨
    (∃ (s : String) (v : Value), e.find? k = some (Value.str s) ∧
      e'.find? k = some v ∧ v.isStr = false) := by
  induction cs generalizing e cs' with
  | nil =>
      unfold AnswerStore.translateLoop at h
      have h' := Except.ok.inj h
      rw [Prod.mk.injEq] at h'
      left
      rw [← h'.1]
  | cons c cs ih =>
      obtain ⟨e₁, c₁, cs₂, h₁, h₂, -⟩ :=
        AnswerStore.translateLoop_cons_inv e c cs e' cs' h
      cases AnswerStore.translateComponent_evolve e c e₁ c₁ h₁ k with
      | inl heq =>
          cases ih e₁ cs₂ h₂ with
          | inl heq₂ => left; rw [heq₂, heq]
          | inr hex₂ =>
              obtain ⟨s, v, hs, hv', hns⟩ := hex₂
              right
              exact ⟨s, v, by rw [← heq, hs], hv', hns⟩
      | inr hex =>
          obtain ⟨s, v, hs, hv₁, hns⟩ := hex
          cases ih e₁ cs₂ h₂ with
          | inl heq₂ =>
              right
              exact ⟨s, v, hs, by rw [heq₂, hv₁], hns⟩
          | inr hex₂ =>
              obtain ⟨s₂, v₂, hs₂, hv₂, hns₂⟩ := hex₂
              rw [hv₁] at hs₂
              rw [Option.some.inj hs₂] at hns
              simp [Value.isStr] at hns

theorem AnswerStore.translateLoop_idem (cs : List Component) (e e' : Entry)
    (cs' : List Component)
    (h : AnswerStore.translateLoop e cs = .ok (e', cs')) :
    AnswerStore.translateLoop e' cs' = .ok (e', cs') := by
  induction cs generalizing e cs' with
  | nil =>
      unfold AnswerStore.translateLoop at h
      have h' := Except.ok.inj h
      rw [Prod.mk.injEq] at h'
      rw [← h'.1, ← h'.2]
      rfl
  | cons c cs ih =>
      obtain ⟨e₁, c₁, cs₂, h₁, h₂, hcs⟩ :=
        AnswerStore.translateLoop_cons_inv e c cs e' cs' h
      subst hcs
      have hkey := (AnswerStore.translateComponent_fields e c e₁ c₁ h₁).1
      have hev := AnswerStore.translateLoop_evolve cs e₁ e' cs₂ h₂ c.key
      have hstab := AnswerStore.translateComponent_stable e c e₁ c₁ e' h₁ hev
      exact AnswerStore.translateLoop_cons_ok e' c₁ cs₂ e' c₁ e' cs₂ hstab (ih e₁ cs₂ h₂)

theorem AnswerStore.translateComponent_ne_nil (e : Entry) (c : Component) (e₁ : Entry)
    (c₁ : Component) (h : AnswerStore.translateComponent e c = .ok (e₁, c₁))
    (hne : e ≠ []) : e₁ ≠ [] := by
  by_cases hstr : ∃ s : String, e.find? c.key = some (Value.str s)
  · obtain ⟨s, hv⟩ := hstr
    obtain ⟨hb, -⟩ := AnswerStore.translateComponent_of_str e c e₁ c₁ s hv h
    obtain ⟨v, he₁, -⟩ := AnswerStore.applyBranch_shape c e s e₁ hv hb
    rw [he₁]
    exact assocSet_ne_nil e c.key v
  · obtain ⟨he₁, -⟩ :=
      AnswerStore.translateComponent_of_not_str e c e₁ c₁ h (fun s hs => hstr ⟨s, hs⟩)
    rw [he₁]
    exact hne

theorem AnswerStore.translateLoop_ne_nil (cs : List Component) (e e' : Entry)
    (cs' : List Component)
    (h : AnswerStore.translateLoop e cs = .ok (e', cs')) (hne : e ≠ []) : e' ≠ [] := by
  induction cs generalizing e cs' with
  | nil =>
      unfold AnswerStore.translateLoop at h
      have h' := Except.ok.inj h
      rw [Prod.mk.injEq] at h'
      rw [← h'.1]
      exact hne
  | cons c cs ih =>
      obtain ⟨e₁, c₁, cs₂, h₁, h₂, -⟩ :=
        AnswerStore.translateLoop_cons_inv e c cs e' cs' h
      exact ih e₁ cs₂ h₂ (AnswerStore.translateComponent_ne_nil e c e₁ c₁ h₁ hne)

theorem AnswerStore.translate_none (st : Storage) (d : Dialog)
    (hf : st.find? d.scope = Option.none) : AnswerStore.translate st d = .ok (st, d) := by
  unfold AnswerStore.translate
  rw [hf]

theorem AnswerStore.translate_empty (st : Storage) (d : Dialog) (e : Entry)
    (hf : st.find? d.scope = some e) (he : e = []) :
    AnswerStore.translate st d = .ok (st, d) := by
  unfold AnswerStore.translate
  rw [hf]
  simp [he]

theorem AnswerStore.translate_run (st : Storage) (d : Dialog) (e e' : Entry)
    (cs' : List Component) (hf : st.find? d.scope = some e) (hne : e ≠ [])
    (hl : AnswerStore.translateLoop e d.components = .ok (e', cs')) :
    AnswerStore.translate st d =
      .ok (st.set d.scope e', { d with components := cs' }) := by
  unfold AnswerStore.translate
  rw [hf]
  simp only [if_neg hne, hl, exceptBind_ok]

theorem AnswerStore.translate_err (st : Storage) (d : Dialog) (e : Entry) (err : PyErr)
    (hf : st.find? d.scope = some e) (hne : e ≠ [])
    (hl : AnswerStore.translateLoop e d.components = .error err) :
    AnswerStore.translate st d = .error err := by
  unfold AnswerStore.translate
  rw [hf]
  simp only [if_neg hne, hl, exceptBind_err]

theorem AnswerStore.translate_run_inv (st : Storage) (d : Dialog) (e : Entry)
    (st' : Storage) (d' : Dialog) (hf : st.find? d.scope = some e) (hne : e ≠ [])
    (h : AnswerStore.translate st d = .ok (st', d')) :
    ∃ (e' : Entry) (cs' : List Component),
      AnswerStore.translateLoop e d.components = .ok (e', cs') ∧
      st' = st.set d.scope e' ∧ d' = { d with components := cs' } := by
  cases hl : AnswerStore.translateLoop e d.components with
  | error err =>
      rw [AnswerStore.translate_err st d e err hf hne hl] at h
      cases h
  | ok p =>
      obtain ⟨e', cs'⟩ := p
      rw [AnswerStore.translate_run st d e e' cs' hf hne hl] at h
      have h' := Except.ok.inj h
      rw [Prod.mk.injEq] at h'
      exact ⟨e', cs', rfl, h'.1.symm, h'.2.symm⟩

theorem Storage.set_set (st : Storage) (s : String) (e : Entry) :
    (st.set s e).set s e = st.set s e :=
  assocSet_assocSet st s e e

/-- C9: translation is idempotent — whenever `translate` succeeds, running it
again on the resulting storage and dialog returns exactly the same storage
and components (already-typed values are left untouched on the second pass,
and surviving raw strings re-coerce to themselves). -/
theorem claimC9_translate_idempotent (st : Storage) (d : Dialog) (st' : Storage)
    (d' : Dialog) (h : AnswerStore.translate st d = .ok (st', d')) :
    AnswerStore.translate st' d' = .ok (st', d') := by
  cases hf : st.find? d.scope with
  | none =>
      rw [AnswerStore.translate_none st d hf] at h
      have h' := Except.ok.inj h
      rw [Prod.mk.injEq] at h'
      rw [← h'.1, ← h'.2]
      exact AnswerStore.translate_none st d hf
  | some e =>
      by_cases he : e = []
      · rw [AnswerStore.translate_empty st d e hf he] at h
        have h' := Except.ok.inj h
        rw [Prod.mk.injEq] at h'
        rw [← h'.1, ← h'.2]
        exact AnswerStore.translate_empty st d e hf he
      · obtain ⟨e', cs', hl, hst', hd'⟩ :=
          AnswerStore.translate_run_inv st d e st' d' hf he h
        subst hst'
        subst hd'
        have hne' : e' ≠ [] := AnswerStore.translateLoop_ne_nil d.components e e' cs' hl he
        have hf' : (st.set d.scope e').find? d.scope = some e' :=
          Storage.find?_set_same st d.scope e'
        have hl' : AnswerStore.translateLoop e' cs' = .ok (e', cs') :=
          AnswerStore.translateLoop_idem d.components e e' cs' hl
        have hrun := AnswerStore.translate_run (st.set d.scope e')
          { d with components := cs' } e' e' cs' hf' hne' hl'
        rw [hrun, Storage.set_set]

def dC9w : Dialog :=
  ⟨"s9", "", "",
    [⟨"flag", "", "", ValueType.bool, Value.none, Option.none, Value.none⟩]⟩

theorem claimC9_witness :
    AnswerStore.translate
      [("s9", [("flag", Value.bool true)])]
      { dC9w with components :=
          [⟨"flag", "", "", ValueType.bool, Value.none, Option.none, Value.bool true⟩] } =
      .ok ([("s9", [("flag", Value.bool true)])],
        { dC9w with components :=
            [⟨"flag", "", "", ValueType.bool, Value.none, Option.none, Value.bool true⟩] }) := by
  have h : AnswerStore.translate [("s9", [("flag", Value.str "true")])] dC9w =
      .ok ([("s9", [("flag", Value.bool true)])],
        { dC9w with components :=
            [⟨"flag", "", "", ValueType.bool, Value.none, Option.none, Value.bool true⟩] }) := rfl
  exact claimC9_translate_idempotent _ _ _ _ h

/-! ### C10: falsy answers are emitted as unanswered -/

/-- C10: in `generate`'s component emission, a stored answer that is falsy
(`False`, `0`, `()`, `""` — or `None`/absent) produces exactly the output of
an unanswered question: the block equals the one generated from empty
storage, and it ends with the commented-out suggestion pair built from the
(possibly `;`-joined) default — never an active `key = value` line. -/
theorem claimC10_falsy_commented (st : Storage) (scope : String) (c : Component)
    (hfalsy : (((st.find? scope).getD []).get c.key).truthy = false) :
    AnswerStore.componentLines st scope c = AnswerStore.componentLines [] scope c ∧
    (∀ ls : List String, AnswerStore.componentLines st scope c = .ok ls →
      ∃ (pre : List String) (dv : Value),
        AnswerStore.joinedDefault c = .ok dv ∧
        ls = pre ++
          ["# Unanswered question. Uncomment the following line with your answer",
           "# " ++ c.key ++ " = " ++ (if dv.truthy then dv else Value.str "").pyStr,
           ""]) := by
  have hanswer_nil :
      ((Storage.find? ([] : Storage) scope).getD []).get c.key = Value.none := rfl
  cases hc : c.choices with
  | none =>
      have hcomp : AnswerStore.componentLines st scope c =
          .ok ([AnswerStore.bannerLine scope c.key,
                AnswerStore.fmt20 "Label:" c.label,
                AnswerStore.fmt20 "Description:" c.description,
                AnswerStore.fmt20 "Type:" c.value_type.name,
                AnswerStore.fmt20 "Default:" c.default.pyStr] ++
               ["# Unanswered question. Uncomment the following line with your answer",
                "# " ++ c.key ++ " = " ++
                  (if c.default.truthy then c.default else Value.str "").pyStr,
                ""]) := by
        unfold AnswerStore.componentLines
        rw [hc]
        simp [hfalsy]
      have hcomp' : AnswerStore.componentLines [] scope c =
          .ok ([AnswerStore.bannerLine scope c.key,
                AnswerStore.fmt20 "Label:" c.label,
                AnswerStore.fmt20 "Description:" c.description,
                AnswerStore.fmt20 "Type:" c.value_type.name,
                AnswerStore.fmt20 "Default:" c.default.pyStr] ++
               ["# Unanswered question. Uncomment the following line with your answer",
                "# " ++ c.key ++ " = " ++
                  (if c.default.truthy then c.default else Value.str "").pyStr,
                ""]) := by
        unfold AnswerStore.componentLines
        rw [hc]
        simp [hanswer_nil, Value.truthy]
      refine ⟨hcomp.trans hcomp'.symm, ?_⟩
      intro ls hls
      rw [hcomp] at hls
      refine ⟨[AnswerStore.bannerLine scope c.key,
               AnswerStore.fmt20 "Label:" c.label,
               AnswerStore.fmt20 "Description:" c.description,
               AnswerStore.fmt20 "Type:" c.value_type.name,
               AnswerStore.fmt20 "Default:" c.default.pyStr], c.default, ?_, ?_⟩
      · unfold AnswerStore.joinedDefault
        simp [hc]
      · rw [← Except.ok.inj hls]
  | some chs =>
      by_cases hvt : c.value_type = ValueType.tuple
      · cases hj : pyJoin c.default with
        | error err =>
            have hcomp : AnswerStore.componentLines st scope c = .error err := by
              unfold AnswerStore.componentLines
              rw [hc]
              simp [hvt, hj, exceptBind_err]
            have hcomp' : AnswerStore.componentLines [] scope c = .error err := by
              unfold AnswerStore.componentLines
              rw [hc]
              simp [hvt, hj, exceptBind_err]
            refine ⟨hcomp.trans hcomp'.symm, ?_⟩
            intro ls hls
            rw [hcomp] at hls
            cases hls
        | ok dflt =>
            have hcomp : ∀ st₀ : Storage,
                (((st₀.find? scope).getD []).get c.key).truthy = false →
                AnswerStore.componentLines st₀ scope c =
                .ok ([AnswerStore.bannerLine scope c.key,
                      AnswerStore.fmt20 "Label:" c.label,
                      AnswerStore.fmt20 "Description:" c.description,
                      AnswerStore.fmt20 "Type:" c.value_type.name,
                      AnswerStore.fmt20 "Default:" (Value.str dflt).pyStr] ++
                     ("# Available choices:" :: chs.map (fun choice => "# - " ++ choice)) ++
                     ["#", "# Values are separated by semi-colon \";\""] ++
                     ["# Unanswered question. Uncomment the following line with your answer",
                      "# " ++ c.key ++ " = " ++
                        (if (Value.str dflt).truthy then Value.str dflt
                         else Value.str "").pyStr,
                      ""]) := by
              intro st₀ hf₀
              unfold AnswerStore.componentLines
              rw [hc]
              simp [hvt, hj, hf₀, exceptBind_ok]
            refine ⟨(hcomp st hfalsy).trans (hcomp [] (by rw [hanswer_nil]; rfl)).symm, ?_⟩
            intro ls hls
            rw [hcomp st hfalsy] at hls
            refine ⟨[AnswerStore.bannerLine scope c.key,
                     AnswerStore.fmt20 "Label:" c.label,
                     AnswerStore.fmt20 "Description:" c.description,
                     AnswerStore.fmt20 "Type:" c.value_type.name,
                     AnswerStore.fmt20 "Default:" (Value.str dflt).pyStr] ++
                    ("# Available choices:" :: chs.map (fun choice => "# - " ++ choice)) ++
                    ["#", "# Values are separated by semi-colon \";\""],
                    Value.str dflt, ?_, ?_⟩
            · unfold AnswerStore.joinedDefault
              simp [hc, hvt, hj, exceptBind_ok]
            · rw [← Except.ok.inj hls]
      · have hcomp : ∀ st₀ : Storage,
            (((st₀.find? scope).getD []).get c.key).truthy = false →
            AnswerStore.componentLines st₀ scope c =
            .ok ([AnswerStore.bannerLine scope c.key,
                  AnswerStore.fmt20 "Label:" c.label,
                  AnswerStore.fmt20 "Description:" c.description,
                  AnswerStore.fmt20 "Type:" c.value_type.name,
                  AnswerStore.fmt20 "Default:" c.default.pyStr] ++
                 ("# Available choices:" :: chs.map (fun choice => "# - " ++ choice)) ++
                 ["# Unanswered question. Uncomment the following line with your answer",
                  "# " ++ c.key ++ " = " ++
                    (if c.default.truthy then c.default else Value.str "").pyStr,
                  ""]) := by
          intro st₀ hf₀
          unfold AnswerStore.componentLines
          rw [hc]
          simp [hvt, hf₀]
        refine ⟨(hcomp st hfalsy).trans (hcomp [] (by rw [hanswer_nil]; rfl)).symm, ?_⟩
        intro ls hls
        rw [hcomp st hfalsy] at hls
        refine ⟨[AnswerStore.bannerLine scope c.key,
                 AnswerStore.fmt20 "Label:" c.label,
                 AnswerStore.fmt20 "Description:" c.description,
                 AnswerStore.fmt20 "Type:" c.value_type.name,
                 AnswerStore.fmt20 "Default:" c.default.pyStr] ++
                ("# Available choices:" :: chs.map (fun choice => "# - " ++ choice)),
                c.default, ?_, ?_⟩
        · unfold AnswerStore.joinedDefault
          simp [hc, hvt]
        · rw [← Except.ok.inj hls]

def cC10w : Component :=
  ⟨"flag", "", "", ValueType.bool, Value.none, Option.none, Value.none⟩

theorem claimC10_witness :
    AnswerStore.componentLines [("s10", [("flag", Value.bool false)])] "s10" cC10w =
      AnswerStore.componentLines [] "s10" cC10w :=
  (claimC10_falsy_commented [("s10", [("flag", Value.bool false)])] "s10" cC10w rfl).1

/-! ### C2: the generate → load → translate round trip -/

def cC2x : Component :=
  ⟨"confirm", "", "", ValueType.bool, Value.bool true, Option.none, Value.none⟩

def dC2x : Dialog := ⟨"s2", "t", "r", [cC2x]⟩

def stC2x : Storage := [("s2", [("confirm", Value.bool false)])]

/-- The full pipeline of the round-trip claim on the counterexample input:
generate an answer file, load it into a fresh store, translate the dialogs. -/
def roundTripC2x : Except PyErr (Storage × List Dialog) := do
  let file ← AnswerStore.generate stC2x [dC2x]
  let st₁ ← AnswerStore.load [] file
  AnswerStore.translateDialogs st₁ [dC2x]

/-- C2 counterexample: the typed answer `False` for the bool component
`confirm` is stored, but `generate` emits it as a commented-out suggestion
(falsy answers are treated as unanswered), so after load and translate the
scope's entry is empty and the answer `False` is not reproduced. -/
theorem claimC2_counterexample :
    Entry.get ((stC2x.find? "s2").getD []) "confirm" = Value.bool false ∧
    roundTripC2x = .ok ([("s2", [])], [dC2x]) ∧
    Entry.get ((Storage.find? [("s2", [])] "s2").getD []) "confirm" ≠ Value.bool false := by
  refine ⟨rfl, ?_, by decide⟩
  rfl

/-! #### String-primitive lemmas -/

theorem dropWhile_eq_self_of_all {p : Char → Bool} (cs : List Char)
    (h : ∀ c ∈ cs, p c = false) : cs.dropWhile p = cs := by
  cases cs with
  | nil => rfl
  | cons c l => simp [List.dropWhile_cons, h c (by simp)]

theorem stripChars_eq_self (cs : List Char) (h : ∀ c ∈ cs, c.isWhitespace = false) :
    stripChars cs = cs := by
  unfold stripChars
  rw [dropWhile_eq_self_of_all cs h,
    dropWhile_eq_self_of_all cs.reverse (fun c hc => h c (List.mem_reverse.mp hc)),
    List.reverse_reverse]

theorem stripChars_eq_self_of_ends (cs : List Char)
    (hh : ∀ c, cs.head? = some c → c.isWhitespace = false)
    (hl : ∀ c, cs.getLast? = some c → c.isWhitespace = false) :
    stripChars cs = cs := by
  cases hcs : cs with
  | nil => rfl
  | cons c l =>
      unfold stripChars
      rw [show (c :: l).dropWhile Char.isWhitespace = c :: l by
        simp [List.dropWhile_cons, hh c (by rw [hcs]; rfl)]]
      cases hrev : (c :: l).reverse with
      | nil => exact absurd hrev (by simp)
      | cons r rs =>
          have hr : r.isWhitespace = false := by
            apply hl
            rw [hcs, ← List.head?_reverse, hrev]
            rfl
          rw [show (r :: rs).dropWhile Char.isWhitespace = r :: rs by
            simp [List.dropWhile_cons, hr], ← hrev, List.reverse_reverse]

theorem stripChars_cons_ws (c : Char) (l : List Char) (hc : c.isWhitespace = true) :
    stripChars (c :: l) = stripChars l := by
  unfold stripChars
  rw [show (c :: l).dropWhile Char.isWhitespace = l.dropWhile Char.isWhitespace by
    simp [List.dropWhile_cons, hc]]

theorem stripChars_append_ws (l : List Char) (c : Char) (hc : c.isWhitespace = true) :
    stripChars (l ++ [c]) = stripChars l := by
  unfold stripChars
  rw [List.dropWhile_append]
  by_cases hemp : (l.dropWhile Char.isWhitespace).isEmpty
  · rw [if_pos hemp]
    rw [List.isEmpty_iff] at hemp
    rw [hemp]
    simp [List.dropWhile_cons, hc]
  · rw [if_neg hemp, List.reverse_append]
    rw [show ([c].reverse : List Char) = [c] from rfl]
    rw [show ([c] ++ (l.dropWhile Char.isWhitespace).reverse : List Char)
        = c :: (l.dropWhile Char.isWhitespace).reverse from rfl]
    rw [show (c :: (l.dropWhile Char.isWhitespace).reverse).dropWhile Char.isWhitespace
        = (l.dropWhile Char.isWhitespace).reverse.dropWhile Char.isWhitespace by
      simp [List.dropWhile_cons, hc]]

theorem length_stripChars_le (cs : List Char) : (stripChars cs).length ≤ cs.length := by
  unfold stripChars
  calc ((cs.dropWhile Char.isWhitespace).reverse.dropWhile Char.isWhitespace).reverse.length
      = ((cs.dropWhile Char.isWhitespace).reverse.dropWhile Char.isWhitespace).length := by
        rw [List.length_reverse]
    _ ≤ (cs.dropWhile Char.isWhitespace).reverse.length :=
        (List.dropWhile_sublist _).length_le
    _ = (cs.dropWhile Char.isWhitespace).length := by rw [List.length_reverse]
    _ ≤ cs.length := (List.dropWhile_sublist _).length_le

theorem pyStrip_head (s : String) (hs : pyStrip s = s) (c : Char) (l : List Char)
    (hdata : s.data = c :: l) : c.isWhitespace = false := by
  by_contra hws
  rw [Bool.not_eq_false] at hws
  have h1 : stripChars s.data = s.data := congrArg String.data hs
  rw [hdata, stripChars_cons_ws c l hws] at h1
  have h2 := length_stripChars_le l
  rw [h1] at h2
  simp at h2

theorem pyStrip_last (s : String) (hs : pyStrip s = s) (c : Char)
    (hlast : s.data.getLast? = some c) : c.isWhitespace = false := by
  by_contra hws
  rw [Bool.not_eq_false] at hws
  obtain ⟨l, hl⟩ : ∃ l, s.data = l ++ [c] := by
    rcases List.eq_nil_or_concat s.data with h | ⟨l, x, h⟩
    · rw [h] at hlast; cases hlast
    · rw [h, List.concat_eq_append, List.getLast?_concat] at hlast
      exact ⟨l, by rw [h, List.concat_eq_append, Option.some.inj hlast]⟩
  have h1 : stripChars s.data = s.data := congrArg String.data hs
  rw [hl, stripChars_append_ws l c hws] at h1
  have h2 := length_stripChars_le l
  rw [h1] at h2
  simp at h2

/-! #### split/join lemmas -/

theorem splitChAux_cons (d c : Char) (cs acc : List Char) :
    splitChAux d (c :: cs) acc =
      if c = d then String.mk acc.reverse :: splitChAux d cs []
      else splitChAux d cs (c :: acc) := rfl

theorem splitChAux_no_delim (d : Char) (l : List Char) (acc : List Char)
    (h : d ∉ l) : splitChAux d l acc = [String.mk (acc.reverse ++ l)] := by
  induction l generalizing acc with
  | nil => simp [splitChAux]
  | cons c cs ih =>
      have hc : c ≠ d := fun hcd => h (hcd ▸ List.mem_cons_self c cs)
      rw [splitChAux_cons, if_neg hc, ih (c :: acc) (fun hm => h (List.mem_cons_of_mem c hm))]
      simp

theorem splitChAux_append (d : Char) (l rest acc : List Char) (h : d ∉ l) :
    splitChAux d (l ++ d :: rest) acc =
      String.mk (acc.reverse ++ l) :: splitChAux d rest [] := by
  induction l generalizing acc with
  | nil => simp [splitChAux_cons]
  | cons c cs ih =>
      have hc : c ≠ d := fun hcd => h (hcd ▸ List.mem_cons_self c cs)
      show splitChAux d (c :: (cs ++ d :: rest)) acc = _
      rw [splitChAux_cons, if_neg hc, ih (c :: acc) (fun hm => h (List.mem_cons_of_mem c hm))]
      simp

theorem splitCh_joinCh (d : Char) (xs : List String) (hne : xs ≠ [])
    (h : ∀ x ∈ xs, d ∉ x.data) : splitCh d (joinCh d xs) = xs := by
  induction xs with
  | nil => cases hne rfl
  | cons x ys ih =>
      cases ys with
      | nil =>
          show splitChAux d x.data [] = [x]
          rw [splitChAux_no_delim d x.data [] (h x (by simp))]
          simp
      | cons y zs =>
          show splitChAux d (x.data ++ d :: intercalateCh d (y :: zs)) [] = x :: y :: zs
          rw [splitChAux_append d x.data (intercalateCh d (y :: zs)) [] (h x (by simp))]
          have := ih (by simp) (fun z hz => h z (List.mem_cons_of_mem x hz))
          unfold splitCh joinCh at this
          rw [show (String.mk (intercalateCh d (y :: zs))).data
            = intercalateCh d (y :: zs) from rfl] at this
          rw [this]
          simp

theorem unlines_data (l : String) (ls : List String) :
    (AnswerStore.unlines (l :: ls)).data = l.data ++ '\n' :: (AnswerStore.unlines ls).data := by
  unfold AnswerStore.unlines
  simp

theorem splitCh_unlines (ls : List String) (h : ∀ l ∈ ls, '\n' ∉ l.data) :
    splitCh '\n' (AnswerStore.unlines ls) = ls ++ [""] := by
  induction ls with
  | nil => rfl
  | cons l ls ih =>
      show splitChAux '\n' (AnswerStore.unlines (l :: ls)).data [] = _
      rw [unlines_data, splitChAux_append '\n' l.data _ [] (h l (by simp))]
      have := ih (fun x hx => h x (List.mem_cons_of_mem l hx))
      unfold splitCh at this
      rw [this]
      simp

/-! #### decimal printing and parsing -/

theorem digitChar_isDigit (d : Nat) (h : d < 10) : (Nat.digitChar d).isDigit = true := by
  interval_cases d <;> rfl

theorem digitChar_not_ws (d : Nat) (h : d < 10) : (Nat.digitChar d).isWhitespace = false := by
  interval_cases d <;> rfl

theorem digitChar_ne_signs (d : Nat) (h : d < 10) :
    Nat.digitChar d ≠ '-' ∧ Nat.digitChar d ≠ '+' := by
  interval_cases d <;> exact ⟨by decide, by decide⟩

theorem digitVal?_digitChar (d : Nat) (h : d < 10) : digitVal? (Nat.digitChar d) = some d := by
  interval_cases d <;> rfl

theorem natDigitsRev_ne_nil (n : Nat) : natDigitsRev n ≠ [] := by
  rw [natDigitsRev]
  split <;> simp

theorem natDigitsRev_digits (n : Nat) : ∀ c ∈ natDigitsRev n, c.isDigit = true := by
  induction n using Nat.strong_induction_on with
  | _ n ih =>
      rw [natDigitsRev]
      split
      · intro c hc
        rw [List.mem_singleton.mp hc]
        exact digitChar_isDigit n (by omega)
      · intro c hc
        rcases List.mem_cons.mp hc with h | h
        · rw [h]; exact digitChar_isDigit (n % 10) (by omega)
        · exact ih (n / 10) (Nat.div_lt_self (by omega) (by omega)) c h

theorem parseDigits?_natDigits (n : Nat) :
    parseDigits? (natDigitsRev n).reverse = some n := by
  have key : ∀ m : Nat,
      ((natDigitsRev m).reverse).foldl (fun acc c =>
        match acc, digitVal? c with
        | some k, some d => some (10 * k + d)
        | _, _ => Option.none) (some 0) = some m := by
    intro m
    induction m using Nat.strong_induction_on with
    | _ m ih =>
        rw [natDigitsRev]
        split
        · rename_i hlt
          rw [List.reverse_singleton, List.foldl_cons, List.foldl_nil,
            digitVal?_digitChar m (by omega)]
          show some (10 * 0 + m) = some m
          norm_num
        · rename_i hge
          rw [List.reverse_cons, List.foldl_append,
            ih (m / 10) (Nat.div_lt_self (by omega) (by omega)),
            List.foldl_cons, List.foldl_nil, digitVal?_digitChar (m % 10) (by omega)]
          show some (10 * (m / 10) + m % 10) = some m
          have : 10 * (m / 10) + m % 10 = m := by omega
          rw [this]
  unfold parseDigits?
  rw [if_neg (by simp [natDigitsRev_ne_nil n]), key n]

theorem natDigitsRev_not_ws (n : Nat) : ∀ c ∈ natDigitsRev n, c.isWhitespace = false := by
  induction n using Nat.strong_induction_on with
  | _ n ih =>
      rw [natDigitsRev]
      split
      · intro c hc
        rw [List.mem_singleton.mp hc]
        exact digitChar_not_ws n (by omega)
      · intro c hc
        rcases List.mem_cons.mp hc with h | h
        · rw [h]; exact digitChar_not_ws (n % 10) (by omega)
        · exact ih (n / 10) (Nat.div_lt_self (by omega) (by omega)) c h

theorem pyInt?_natRepr (n : Nat) : pyInt? (natRepr n) = some (n : Int) := by
  have hdigits : ∀ c ∈ (natDigitsRev n).reverse, c.isDigit = true :=
    fun c hc => natDigitsRev_digits n c (List.mem_reverse.mp hc)
  have hws : ∀ c ∈ (natDigitsRev n).reverse, c.isWhitespace = false :=
    fun c hc => natDigitsRev_not_ws n c (List.mem_reverse.mp hc)
  unfold pyInt? natRepr
  rw [show (String.mk (natDigitsRev n).reverse).data = (natDigitsRev n).reverse from rfl]
  rw [stripChars_eq_self _ hws]
  have hne := natDigitsRev_ne_nil n
  cases hrev : (natDigitsRev n).reverse with
  | nil => exact absurd (by simpa using congrArg List.length hrev) (by simp [hne])
  | cons c rest =>
      have hcd : c.isDigit = true := hdigits c (by rw [hrev]; exact List.mem_cons_self c rest)
      have hc1 : c ≠ '-' := fun hc' => by rw [hc'] at hcd; exact absurd hcd (by decide)
      have hc2 : c ≠ '+' := fun hc' => by rw [hc'] at hcd; exact absurd hcd (by decide)
      split
      · rename_i heq
        cases heq
      · rename_i rest' heq
        exact absurd (List.head_eq_of_cons_eq heq) hc1
      · rename_i rest' heq
        exact absurd (List.head_eq_of_cons_eq heq) hc2
      · rw [← hrev, parseDigits?_natDigits n]
        rfl

theorem pyInt?_intRepr (i : Int) : pyInt? (intRepr i) = some i := by
  cases i with
  | ofNat n => exact pyInt?_natRepr n
  | negSucc m =>
      unfold pyInt? intRepr
      rw [String.data_append]
      rw [show ("-" : String).data = ['-'] from rfl]
      rw [show (natRepr (m + 1)).data = (natDigitsRev (m + 1)).reverse from rfl]
      have hws : ∀ c ∈ ('-' :: (natDigitsRev (m + 1)).reverse), c.isWhitespace = false := by
        intro c hc
        rcases List.mem_cons.mp hc with h | h
        · rw [h]; rfl
        · exact natDigitsRev_not_ws (m + 1) c (List.mem_reverse.mp h)
      rw [show ['-'] ++ (natDigitsRev (m + 1)).reverse
        = '-' :: (natDigitsRev (m + 1)).reverse from rfl]
      rw [stripChars_eq_self _ hws]
      show (parseDigits? (natDigitsRev (m + 1)).reverse).map (fun n => -(n : Int)) = _
      rw [parseDigits?_natDigits (m + 1)]
      show some (-(((m + 1 : Nat)) : Int)) = some (Int.negSucc m)
      have : -(((m + 1 : Nat)) : Int) = Int.negSucc m := by
        rw [Int.negSucc_eq]
        push_cast
        ring
      rw [this]

/-! #### parser lemmas -/

/-- A line the parser ignores: blank, or starting with `#` or `;`. -/
def skippableLine (l : String) : Prop :=
  pyStrip l = "" ∨ AnswerStore.firstChar? l = some '#' ∨ AnswerStore.firstChar? l = some ';'

theorem AnswerStore.parseLinesAux_cons (line : String) (rest : List String)
    (cur : Option String) (acc : Storage) :
    AnswerStore.parseLinesAux (line :: rest) cur acc =
      if pyStrip line = "" then AnswerStore.parseLinesAux rest cur acc
      else if AnswerStore.firstChar? line = some '#' ∨ AnswerStore.firstChar? line = some ';'
        then AnswerStore.parseLinesAux rest cur acc
      else if AnswerStore.firstChar? line = some '[' then
        match AnswerStore.headerName? line with
        | some name =>
            AnswerStore.parseLinesAux rest (some name)
              (if (assocFind? acc name).isSome then acc else acc.set name [])
        | Option.none => .error .parseError
      else
        match cur with
        | Option.none => .error .missingSectionHeader
        | some sec =>
            match AnswerStore.optLine? line with
            | some (k, v) =>
                AnswerStore.parseLinesAux rest cur
                  (acc.set sec ((((assocFind? acc sec).getD []) : Entry).set k v))
            | Option.none => .error .parseError := rfl

theorem AnswerStore.parseLinesAux_skip (line : String) (rest : List String)
    (cur : Option String) (acc : Storage) (h : skippableLine line) :
    AnswerStore.parseLinesAux (line :: rest) cur acc =
      AnswerStore.parseLinesAux rest cur acc := by
  rw [AnswerStore.parseLinesAux_cons]
  by_cases h0 : pyStrip line = ""
  · rw [if_pos h0]
  · rw [if_neg h0]
    rcases h with h | h
    · exact absurd h h0
    · rw [if_pos h]

theorem AnswerStore.parseLinesAux_skipAll (ls rest : List String)
    (cur : Option String) (acc : Storage) (h : ∀ l ∈ ls, skippableLine l) :
    AnswerStore.parseLinesAux (ls ++ rest) cur acc =
      AnswerStore.parseLinesAux rest cur acc := by
  induction ls with
  | nil => rfl
  | cons l ls ih =>
      rw [List.cons_append,
        AnswerStore.parseLinesAux_skip l (ls ++ rest) cur acc (h l (by simp)),
        ih (fun x hx => h x (List.mem_cons_of_mem l hx))]

theorem takeWhile_append_stop {p : Char → Bool} (l : List Char) (x : Char) (r : List Char)
    (hl : ∀ c ∈ l, p c = true) (hx : p x = false) :
    (l ++ x :: r).takeWhile p = l := by
  induction l with
  | nil => simp [List.takeWhile_cons, hx]
  | cons c cs ih =>
      simp only [List.cons_append, List.takeWhile_cons, hl c (by simp), if_true,
        ih (fun c' hc' => hl c' (List.mem_cons_of_mem c hc'))]

theorem dropWhile_append_stop {p : Char → Bool} (l : List Char) (x : Char) (r : List Char)
    (hl : ∀ c ∈ l, p c = true) (hx : p x = false) :
    (l ++ x :: r).dropWhile p = x :: r := by
  induction l with
  | nil => simp [List.dropWhile_cons, hx]
  | cons c cs ih =>
      simp only [List.cons_append, List.dropWhile_cons, hl c (by simp), if_true,
        ih (fun c' hc' => hl c' (List.mem_cons_of_mem c hc'))]

theorem AnswerStore.headerName?_bracket (name : String) (hne : name ≠ "")
    (hbr : ∀ c ∈ name.data, c ≠ ']') :
    AnswerStore.headerName? ("[" ++ name ++ "]") = some name := by
  have heq : AnswerStore.headerName? ("[" ++ name ++ "]") =
      (if ((name.data ++ [']']).takeWhile (fun c => c ≠ ']')).isEmpty then Option.none
       else if ((name.data ++ [']']).dropWhile (fun c => c ≠ ']')).isEmpty then Option.none
       else some (String.mk ((name.data ++ [']']).takeWhile (fun c => c ≠ ']')))) := rfl
  rw [heq,
    takeWhile_append_stop name.data ']' []
      (fun c hc => by simp [hbr c hc]) (by decide),
    dropWhile_append_stop name.data ']' []
      (fun c hc => by simp [hbr c hc]) (by decide)]
  have hdn : name.data ≠ [] := fun hd => hne (by
    have hmk : name = String.mk name.data := rfl
    rw [hmk, hd])
  simp [hdn]

theorem pyStrip_mk_cons_ne_empty (c : Char) (l : List Char)
    (hc : c.isWhitespace = false) : pyStrip (String.mk (c :: l)) ≠ "" := by
  intro h
  have hdata : stripChars (c :: l) = [] := by
    have h' := congrArg String.data h
    simpa [pyStrip] using h'
  unfold stripChars at hdata
  rw [show (c :: l).dropWhile Char.isWhitespace = c :: l by
    simp [List.dropWhile_cons, hc]] at hdata
  have h2 : (c :: l).reverse.dropWhile Char.isWhitespace = [] := by
    have h3 := congrArg List.reverse hdata
    simpa using h3
  rw [List.dropWhile_eq_nil_iff] at h2
  have h4 := h2 c (by simp)
  rw [hc] at h4
  cases h4

theorem pyStrip_ne_empty_of_data (s : String) (c : Char) (l : List Char)
    (hd : s.data = c :: l) (hc : c.isWhitespace = false) : pyStrip s ≠ "" := by
  have hs : s = String.mk (c :: l) := by rw [← hd]
  rw [hs]
  exact pyStrip_mk_cons_ne_empty c l hc

theorem firstChar?_of_data (s : String) (c : Char) (l : List Char)
    (hd : s.data = c :: l) : AnswerStore.firstChar? s = some c := by
  unfold AnswerStore.firstChar?
  rw [hd]
  rfl

theorem AnswerStore.parseLinesAux_header (name : String) (rest : List String)
    (cur : Option String) (acc : Storage)
    (hne : name ≠ "") (hbr : ∀ c ∈ name.data, c ≠ ']')
    (hfresh : assocFind? acc name = Option.none) :
    AnswerStore.parseLinesAux (("[" ++ name ++ "]") :: rest) cur acc =
      AnswerStore.parseLinesAux rest (some name) (Storage.set acc name []) := by
  rw [AnswerStore.parseLinesAux_cons]
  have hdata : ("[" ++ name ++ "]").data = '[' :: (name.data ++ [']']) := by
    rw [String.data_append, String.data_append]
    simp
  have hblank : pyStrip ("[" ++ name ++ "]") ≠ "" :=
    pyStrip_ne_empty_of_data _ '[' _ hdata (by decide)
  have hfc : AnswerStore.firstChar? ("[" ++ name ++ "]") = some '[' :=
    firstChar?_of_data _ '[' _ hdata
  rw [if_neg hblank,
    if_neg (by rw [hfc]; intro hor; rcases hor with h | h <;> cases Option.some.inj h),
    if_pos hfc, AnswerStore.headerName?_bracket name hne hbr]
  simp [hfresh]

theorem AnswerStore.splitAtDelim_cons (c : Char) (cs : List Char) :
    AnswerStore.splitAtDelim (c :: cs) =
      if c = '=' ∨ c = ':' then some ([], cs)
      else
        match AnswerStore.splitAtDelim cs with
        | some (a, b) => some (c :: a, b)
        | Option.none => Option.none := rfl

theorem AnswerStore.splitAtDelim_append (l r : List Char) (h : ∀ c ∈ l, c ≠ '=' ∧ c ≠ ':') :
    AnswerStore.splitAtDelim (l ++ '=' :: r) = some (l, r) := by
  induction l with
  | nil => simp [AnswerStore.splitAtDelim_cons]
  | cons c cs ih =>
      have hc := h c (by simp)
      show AnswerStore.splitAtDelim (c :: (cs ++ '=' :: r)) = _
      rw [AnswerStore.splitAtDelim_cons, if_neg (by simp [hc.1, hc.2]),
        ih (fun c' hc' => h c' (List.mem_cons_of_mem c hc'))]

theorem AnswerStore.optLine?_eq (k v : String)
    (hkne : k ≠ "") (hkst : pyStrip k = k) (hklo : pyLower k = k)
    (hkch : ∀ c ∈ k.data, c ≠ '=' ∧ c ≠ ':')
    (hvst : pyStrip v = v) :
    AnswerStore.optLine? (k ++ " = " ++ v) = some (k, Value.str v) := by
  unfold AnswerStore.optLine?
  have hdata : (k ++ " = " ++ v).data = (k.data ++ [' ']) ++ '=' :: (' ' :: v.data) := by
    rw [String.data_append, String.data_append]
    simp
  rw [hdata, AnswerStore.splitAtDelim_append (k.data ++ [' ']) (' ' :: v.data)
    (by
      intro c hc
      rcases List.mem_append.mp hc with h | h
      · exact hkch c h
      · simp at h
        rw [h]
        exact ⟨by decide, by decide⟩)]
  have hkey : pyStrip (String.mk (k.data ++ [' '])) = k := by
    unfold pyStrip
    rw [show (String.mk (k.data ++ [' '])).data = k.data ++ [' '] from rfl,
      stripChars_append_ws k.data ' ' (by decide)]
    exact hkst
  have hval : pyStrip (String.mk (' ' :: v.data)) = v := by
    unfold pyStrip
    rw [show (String.mk (' ' :: v.data)).data = ' ' :: v.data from rfl,
      stripChars_cons_ws ' ' v.data (by decide)]
    exact hvst
  show (if pyStrip (String.mk (k.data ++ [' '])) = "" then Option.none
        else some (pyLower (pyStrip (String.mk (k.data ++ [' ']))),
          Value.str (pyStrip (String.mk (' ' :: v.data))))) = some (k, Value.str v)
  rw [hkey, hval, if_neg hkne, hklo]

theorem AnswerStore.parseLinesAux_option (k v : String) (rest : List String)
    (sec : String) (acc : Storage)
    (hkne : k ≠ "") (hkst : pyStrip k = k) (hklo : pyLower k = k)
    (hkch : ∀ c ∈ k.data, c ≠ '=' ∧ c ≠ ':')
    (hkhd : ∀ c, k.data.head? = some c → c ≠ '#' ∧ c ≠ ';' ∧ c ≠ '[')
    (hvst : pyStrip v = v) :
    AnswerStore.parseLinesAux ((k ++ " = " ++ v) :: rest) (some sec) acc =
      AnswerStore.parseLinesAux rest (some sec)
        (Storage.set acc sec
          (Entry.set ((assocFind? acc sec).getD []) k (Value.str v))) := by
  rw [AnswerStore.parseLinesAux_cons]
  obtain ⟨c, l, hkd⟩ : ∃ c l, k.data = c :: l := by
    cases hd : k.data with
    | nil =>
        refine absurd ?_ hkne
        have hmk : k = String.mk k.data := rfl
        rw [hmk, hd]
    | cons c l => exact ⟨c, l, rfl⟩
  obtain ⟨hc1, hc2, hc3⟩ := hkhd c (by rw [hkd]; rfl)
  have hcws : c.isWhitespace = false := pyStrip_head k hkst c l hkd
  have hld : (k ++ " = " ++ v).data = c :: (l ++ (' ' :: '=' :: ' ' :: v.data)) := by
    rw [String.data_append, String.data_append, hkd]
    simp
  have hblank : pyStrip (k ++ " = " ++ v) ≠ "" :=
    pyStrip_ne_empty_of_data _ c _ hld hcws
  have hfc : AnswerStore.firstChar? (k ++ " = " ++ v) = some c :=
    firstChar?_of_data _ c _ hld
  rw [if_neg hblank,
    if_neg (by
      rw [hfc]
      intro hor
      rcases hor with h | h
      · exact hc1 (Option.some.inj h)
      · exact hc2 (Option.some.inj h)),
    if_neg (by
      rw [hfc]
      intro h
      exact hc3 (Option.some.inj h)),
    AnswerStore.optLine?_eq k v hkne hkst hklo hkch hvst]

/-! #### well-formedness predicates for the round trip -/

/-- A string safe to embed in a single generated line. -/
def cleanS (s : String) : Prop := '\n' ∉ s.data

instance (s : String) : Decidable (cleanS s) :=
  inferInstanceAs (Decidable ('\n' ∉ s.data))

/-- A key that survives the answer-file syntax and `optionxform` unchanged:
nonempty, strip- and lower-stable, free of delimiters, and not starting like
a comment or section header. -/
def goodKey (k : String) : Prop :=
  k ≠ "" ∧ pyStrip k = k ∧ pyLower k = k ∧
  (∀ c ∈ k.data, c ≠ '=' ∧ c ≠ ':' ∧ c ≠ '\n') ∧
  (∀ c, k.data.head? = some c → c ≠ '#' ∧ c ≠ ';' ∧ c ≠ '[')

/-- A scope that survives the section-header syntax unchanged. -/
def goodScopeName (s : String) : Prop :=
  s ≠ "" ∧ ∀ c ∈ s.data, c ≠ ']' ∧ c ≠ '\n'

/-- A component whose metadata cannot corrupt the generated file. -/
def GoodComponent (c : Component) : Prop :=
  goodKey c.key ∧ cleanS c.label ∧ cleanS c.description ∧
  (∀ chs, c.choices = some chs → ∀ x ∈ chs, cleanS x) ∧
  (c.value_type = ValueType.tuple →
    c.choices.isSome ∧
    ∃ ds : List String, c.default = Value.tuple ds ∧
      ∀ x ∈ ds, ∀ ch ∈ x.data, ch ≠ ';' ∧ ch ≠ '\n') ∧
  cleanS c.default.pyStr

/-- A stored answer that the generate → load → translate pipeline can carry:
typed according to the component, and rendering to a parse-stable string. -/
def GoodAnswer (c : Component) (v : Value) : Prop :=
  match c.value_type with
  | ValueType.bool => v = Value.bool true
  | ValueType.int => ∃ n : Int, v = Value.int n
  | ValueType.tuple =>
      ∃ xs : List String, v = Value.tuple xs ∧ xs ≠ [] ∧ xs.Nodup ∧
        (∀ x ∈ xs, x ≠ "" ∧ ∀ ch ∈ x.data, ch ≠ ';' ∧ ch.isWhitespace = false) ∧
        (∀ chs, c.choices = some chs → ∀ x ∈ xs, x ∈ chs)
  | ValueType.str =>
      ∃ s : String, v = Value.str s ∧ s ≠ "" ∧ pyStrip s = s ∧ cleanS s ∧
        (∀ chs, c.choices = some chs → s ∈ chs)

/-- The component's stored answer, as `generate` fetches it. -/
def storedAnswer (st : Storage) (scope : String) (c : Component) : Value :=
  ((st.find? scope).getD []).get c.key

/-- Either the component is effectively unanswered (falsy answer), or its
answer is well-typed and well-formed. -/
def AnswerOK (st : Storage) (scope : String) (c : Component) : Prop :=
  (storedAnswer st scope c).truthy = true → GoodAnswer c (storedAnswer st scope c)

def GoodDialog (st : Storage) (d : Dialog) : Prop :=
  goodScopeName d.scope ∧ cleanS d.title ∧ cleanS d.reason ∧
  (d.components.map Component.key).Nodup ∧
  ∀ c ∈ d.components, GoodComponent c ∧ AnswerOK st d.scope c

def GoodDialogs (st : Storage) (ds : List Dialog) : Prop :=
  (ds.map Dialog.scope).Nodup ∧ ∀ d ∈ ds, GoodDialog st d

/-- The string an answered (truthy) component's answer is rendered to on the
generated `key = value` line; `none` for a falsy answer. -/
def renderedAnswer? (st : Storage) (scope : String) (c : Component) : Option String :=
  let a := storedAnswer st scope c
  if a.truthy then
    match a with
    | Value.tuple xs => some (joinCh ';' xs)
    | _ => some a.pyStr
  else Option.none

/-! #### line-shape helper lemmas -/

theorem cleanS_append (a b : String) (ha : cleanS a) (hb : cleanS b) : cleanS (a ++ b) := by
  unfold cleanS at *
  rw [String.data_append]
  intro h
  rcases List.mem_append.mp h with h | h
  · exact ha h
  · exact hb h

theorem cleanS_mk (l : List Char) (h : '\n' ∉ l) : cleanS (String.mk l) := h

theorem cleanS_fmt20 (label content : String) (h1 : cleanS label) (h2 : cleanS content) :
    cleanS (AnswerStore.fmt20 label content) := by
  unfold AnswerStore.fmt20
  refine cleanS_append _ _ (cleanS_append _ _ (by decide) ?_) h2
  refine cleanS_append _ _ h1 (cleanS_mk _ ?_)
  intro hmem
  exact absurd (List.eq_of_mem_replicate hmem) (by decide)

theorem cleanS_pyCenter (s : String) (w : Nat) (f : Char) (hf : f ≠ '\n')
    (hs : cleanS s) : cleanS (AnswerStore.pyCenter s w f) := by
  unfold AnswerStore.pyCenter
  split
  · exact hs
  · refine cleanS_append _ _ (cleanS_append _ _ (cleanS_mk _ ?_) hs) (cleanS_mk _ ?_)
    · intro hmem
      exact hf (List.eq_of_mem_replicate hmem).symm
    · intro hmem
      exact hf (List.eq_of_mem_replicate hmem).symm

theorem cleanS_bannerLine (scope key : String) (h1 : cleanS scope) (h2 : cleanS key) :
    cleanS (AnswerStore.bannerLine scope key) := by
  unfold AnswerStore.bannerLine
  refine cleanS_append _ _ (by decide) (cleanS_pyCenter _ _ _ (by decide) ?_)
  refine cleanS_append _ _ (cleanS_append _ _ (cleanS_append _ _ (cleanS_append _ _
    (by decide) h1) (by decide)) h2) (by decide)

theorem cleanS_typeName (t : ValueType) : cleanS t.name := by
  cases t <;> decide

theorem mem_intercalateCh (d : Char) (xs : List String) (c : Char)
    (h : c ∈ intercalateCh d xs) : c = d ∨ ∃ x ∈ xs, c ∈ x.data := by
  induction xs with
  | nil => cases h
  | cons x ys ih =>
      cases ys with
      | nil => exact Or.inr ⟨x, by simp, h⟩
      | cons y zs =>
          rcases List.mem_append.mp h with h | h
          · exact Or.inr ⟨x, by simp, h⟩
          · rcases List.mem_cons.mp h with h | h
            · exact Or.inl h
            · rcases ih h with h | ⟨z, hz, hc⟩
              · exact Or.inl h
              · exact Or.inr ⟨z, List.mem_cons_of_mem x hz, hc⟩

theorem joinCh_not_ws (xs : List String)
    (hx : ∀ x ∈ xs, ∀ ch ∈ x.data, ch ≠ ';' ∧ ch.isWhitespace = false) :
    ∀ c ∈ (joinCh ';' xs).data, c.isWhitespace = false := by
  intro c hc
  rcases mem_intercalateCh ';' xs c hc with h | ⟨x, hxm, hcm⟩
  · rw [h]; rfl
  · exact (hx x hxm c hcm).2

theorem joinCh_clean (xs : List String)
    (hx : ∀ x ∈ xs, ∀ ch ∈ x.data, ch ≠ ';' ∧ ch.isWhitespace = false) :
    cleanS (joinCh ';' xs) := by
  intro hmem
  have := joinCh_not_ws xs hx '\n' hmem
  cases this

theorem joinCh_strip_stable (xs : List String)
    (hx : ∀ x ∈ xs, ∀ ch ∈ x.data, ch ≠ ';' ∧ ch.isWhitespace = false) :
    pyStrip (joinCh ';' xs) = joinCh ';' xs := by
  unfold pyStrip
  rw [stripChars_eq_self _ (joinCh_not_ws xs hx)]

theorem joinCh_ne_empty (x : String) (ys : List String) (hx : x ≠ "") :
    joinCh ';' (x :: ys) ≠ "" := by
  have hxd : x.data ≠ [] := fun hd => hx (by
    have hmk : x = String.mk x.data := rfl
    rw [hmk, hd])
  intro h
  have hdata : intercalateCh ';' (x :: ys) = [] := by
    have h' := congrArg String.data h
    simpa [joinCh] using h'
  cases ys with
  | nil => exact hxd (by simpa [intercalateCh] using hdata)
  | cons y zs =>
      rw [show intercalateCh ';' (x :: y :: zs)
        = x.data ++ ';' :: intercalateCh ';' (y :: zs) from rfl] at hdata
      simp at hdata

theorem not_ws_ne_nl (c : Char) (h : c.isWhitespace = false) : c ≠ '\n' := by
  intro he
  rw [he] at h
  cases h

theorem joinCh_clean_nl (xs : List String)
    (hx : ∀ x ∈ xs, ∀ ch ∈ x.data, ch ≠ '\n') : cleanS (joinCh ';' xs) := by
  intro hmem
  rcases mem_intercalateCh ';' xs '\n' hmem with h | ⟨x, hxm, hcm⟩
  · cases h
  · exact hx x hxm '\n' hcm rfl

theorem cleanS_of_goodKey (k : String) (h : goodKey k) : cleanS k :=
  fun hm => (h.2.2.2.1 '\n' hm).2.2 rfl

theorem cleanS_of_goodScope (s : String) (h : goodScopeName s) : cleanS s :=
  fun hm => (h.2 '\n' hm).2 rfl

theorem skippable_hash (l : String) (h : AnswerStore.firstChar? l = some '#') :
    skippableLine l := Or.inr (Or.inl h)

theorem skippable_blank : skippableLine "" := Or.inl rfl

theorem storedAnswer_def (st : Storage) (scope : String) (c : Component) :
    storedAnswer st scope c = ((st.find? scope).getD []).get c.key := rfl

theorem renderedAnswer?_falsy (st : Storage) (scope : String) (c : Component)
    (htr : (storedAnswer st scope c).truthy = false) :
    renderedAnswer? st scope c = Option.none := by
  unfold renderedAnswer?
  rw [show (if (storedAnswer st scope c).truthy = true then
      (match storedAnswer st scope c with
       | Value.tuple xs => some (joinCh ';' xs)
       | _ => some (storedAnswer st scope c).pyStr)
      else Option.none) = _ from rfl]
  rw [if_neg (by rw [htr]; exact Bool.false_ne_true)]

theorem renderedAnswer?_pyStr (st : Storage) (scope : String) (c : Component)
    (htr : (storedAnswer st scope c).truthy = true)
    (hnt : ∀ xs : List String, storedAnswer st scope c ≠ Value.tuple xs) :
    renderedAnswer? st scope c = some (storedAnswer st scope c).pyStr := by
  unfold renderedAnswer?
  rw [show (if (storedAnswer st scope c).truthy = true then
      (match storedAnswer st scope c with
       | Value.tuple xs => some (joinCh ';' xs)
       | _ => some (storedAnswer st scope c).pyStr)
      else Option.none) = _ from rfl]
  rw [if_pos htr]
  cases hval : storedAnswer st scope c with
  | tuple xs => exact absurd hval (hnt xs)
  | str s => rfl
  | bool b => rfl
  | int n => rfl
  | none => rfl

theorem renderedAnswer?_join (st : Storage) (scope : String) (c : Component)
    (xs : List String)
    (htr : (storedAnswer st scope c).truthy = true)
    (hval : storedAnswer st scope c = Value.tuple xs) :
    renderedAnswer? st scope c = some (joinCh ';' xs) := by
  unfold renderedAnswer?
  rw [show (if (storedAnswer st scope c).truthy = true then
      (match storedAnswer st scope c with
       | Value.tuple xs => some (joinCh ';' xs)
       | _ => some (storedAnswer st scope c).pyStr)
      else Option.none) = _ from rfl]
  rw [if_pos htr, hval]

theorem intRepr_not_ws (i : Int) : ∀ ch ∈ (intRepr i).data, ch.isWhitespace = false := by
  cases i with
  | ofNat n =>
      intro ch hch
      exact natDigitsRev_not_ws n ch (List.mem_reverse.mp hch)
  | negSucc m =>
      intro ch hch
      rw [show (intRepr (Int.negSucc m)).data
        = '-' :: (natDigitsRev (m + 1)).reverse by
          rw [show intRepr (Int.negSucc m) = "-" ++ natRepr (m + 1) from rfl,
            String.data_append]
          rfl] at hch
      rcases List.mem_cons.mp hch with h | h
      · rw [h]; rfl
      · exact natDigitsRev_not_ws (m + 1) ch (List.mem_reverse.mp h)

theorem goodAnswer_render (c : Component) (a : Value)
    (hvt : c.value_type ≠ ValueType.tuple) (ga : GoodAnswer c a) :
    cleanS a.pyStr ∧ pyStrip a.pyStr = a.pyStr ∧ (∀ xs : List String, a ≠ Value.tuple xs) := by
  unfold GoodAnswer at ga
  cases hv : c.value_type with
  | tuple => exact absurd hv hvt
  | bool =>
      rw [hv] at ga
      rw [ga]
      exact ⟨by decide, by decide, by intro xs h; cases h⟩
  | int =>
      rw [hv] at ga
      obtain ⟨n, rfl⟩ := ga
      refine ⟨?_, ?_, by intro xs h; cases h⟩
      · intro hm
        exact absurd rfl (not_ws_ne_nl '\n' (intRepr_not_ws n '\n' hm))
      · show pyStrip (intRepr n) = intRepr n
        unfold pyStrip
        rw [stripChars_eq_self _ (intRepr_not_ws n)]
  | str =>
      rw [hv] at ga
      obtain ⟨s, rfl, hne, hstrip, hclean, -⟩ := ga
      exact ⟨hclean, hstrip, by intro xs h; cases h⟩

theorem headerBlock_props (scope : String) (c : Component) (dflt : Value)
    (hsc : cleanS scope) (hk : cleanS c.key) (hlab : cleanS c.label)
    (hdesc : cleanS c.description) (hdfl : cleanS dflt.pyStr) :
    ∀ l ∈ [AnswerStore.bannerLine scope c.key,
           AnswerStore.fmt20 "Label:" c.label,
           AnswerStore.fmt20 "Description:" c.description,
           AnswerStore.fmt20 "Type:" c.value_type.name,
           AnswerStore.fmt20 "Default:" dflt.pyStr],
      cleanS l ∧ skippableLine l := by
  intro l hl
  simp only [List.mem_cons, List.not_mem_nil, or_false] at hl
  rcases hl with rfl | rfl | rfl | rfl | rfl
  · exact ⟨cleanS_bannerLine scope c.key hsc hk, skippable_hash _ rfl⟩
  · exact ⟨cleanS_fmt20 _ _ (by decide) hlab, skippable_hash _ rfl⟩
  · exact ⟨cleanS_fmt20 _ _ (by decide) hdesc, skippable_hash _ rfl⟩
  · exact ⟨cleanS_fmt20 _ _ (by decide) (cleanS_typeName _), skippable_hash _ rfl⟩
  · exact ⟨cleanS_fmt20 _ _ (by decide) hdfl, skippable_hash _ rfl⟩

theorem choicesBlock_props (chs : List String) (hcl : ∀ x ∈ chs, cleanS x) :
    ∀ l ∈ ("# Available choices:" :: chs.map (fun choice => "# - " ++ choice)),
      cleanS l ∧ skippableLine l := by
  intro l hl
  rcases List.mem_cons.mp hl with rfl | hl
  · exact ⟨by decide, skippable_hash _ rfl⟩
  · obtain ⟨x, hx, rfl⟩ := List.mem_map.mp hl
    exact ⟨cleanS_append _ _ (by decide) (hcl x hx), skippable_hash _ rfl⟩

theorem AnswerStore.componentLines_shape (st : Storage) (scope : String) (c : Component)
    (hsc : cleanS scope) (hg : GoodComponent c) (ha : AnswerOK st scope c) :
    ∃ ls : List String,
      AnswerStore.componentLines st scope c = .ok ls ∧
      (∀ l ∈ ls, cleanS l) ∧
      ((∃ (pre post : List String) (rv : String),
          renderedAnswer? st scope c = some rv ∧
          ls = pre ++ (c.key ++ " = " ++ rv) :: post ∧
          (∀ l ∈ pre, skippableLine l) ∧ (∀ l ∈ post, skippableLine l) ∧
          pyStrip rv = rv) ∨
       (renderedAnswer? st scope c = Option.none ∧ ∀ l ∈ ls, skippableLine l)) := by
  obtain ⟨hk, hlab, hdesc, hchcl, htup, hdefcl⟩ := hg
  have hkcl : cleanS c.key := cleanS_of_goodKey c.key hk
  have hX : (((st.find? scope).getD []).get c.key) = storedAnswer st scope c := rfl
  cases hc : c.choices with
  | none =>
      have hvt : c.value_type ≠ ValueType.tuple := by
        intro hv
        have := (htup hv).1
        rw [hc] at this
        cases this
      by_cases htr : (storedAnswer st scope c).truthy = true
      · -- truthy, no choices attribute: a plain active line
        have ga := ha htr
        obtain ⟨hrvcl, hrvst, hnt⟩ := goodAnswer_render c _ hvt ga
        have htr' : (((st.find? scope).getD []).get c.key).truthy = true := htr
        have hcomp : AnswerStore.componentLines st scope c =
            .ok ([AnswerStore.bannerLine scope c.key,
                  AnswerStore.fmt20 "Label:" c.label,
                  AnswerStore.fmt20 "Description:" c.description,
                  AnswerStore.fmt20 "Type:" c.value_type.name,
                  AnswerStore.fmt20 "Default:" c.default.pyStr] ++
                 (c.key ++ " = " ++ (storedAnswer st scope c).pyStr) :: [""]) := by
          unfold AnswerStore.componentLines
          rw [hc]
          simp [hX, htr]
        refine ⟨_, hcomp, ?_, Or.inl ⟨[AnswerStore.bannerLine scope c.key,
            AnswerStore.fmt20 "Label:" c.label,
            AnswerStore.fmt20 "Description:" c.description,
            AnswerStore.fmt20 "Type:" c.value_type.name,
            AnswerStore.fmt20 "Default:" c.default.pyStr], [""],
            (storedAnswer st scope c).pyStr,
            renderedAnswer?_pyStr st scope c htr hnt, rfl,
            fun l hl => (headerBlock_props scope c c.default hsc hkcl hlab hdesc hdefcl
              l hl).2,
            fun l hl => by
              rw [List.mem_singleton.mp hl]
              exact skippable_blank,
            hrvst⟩⟩
        intro l hl
        rcases List.mem_append.mp hl with hl | hl
        · exact (headerBlock_props scope c c.default hsc hkcl hlab hdesc hdefcl l hl).1
        · rcases List.mem_cons.mp hl with rfl | hl
          · exact cleanS_append _ _ (cleanS_append _ _ hkcl (by decide)) hrvcl
          · rw [List.mem_singleton.mp hl]
            decide
      · -- falsy, no choices attribute: fully commented block
        rw [Bool.not_eq_true] at htr
        have htr' : (((st.find? scope).getD []).get c.key).truthy = false := htr
        have hsugcl : cleanS (if c.default.truthy then c.default else Value.str "").pyStr := by
          split
          · exact hdefcl
          · decide
        have hcomp : AnswerStore.componentLines st scope c =
            .ok ([AnswerStore.bannerLine scope c.key,
                  AnswerStore.fmt20 "Label:" c.label,
                  AnswerStore.fmt20 "Description:" c.description,
                  AnswerStore.fmt20 "Type:" c.value_type.name,
                  AnswerStore.fmt20 "Default:" c.default.pyStr] ++
                 ["# Unanswered question. Uncomment the following line with your answer",
                  "# " ++ c.key ++ " = " ++
                    (if c.default.truthy then c.default else Value.str "").pyStr,
                  ""]) := by
          unfold AnswerStore.componentLines
          rw [hc]
          simp [hX, htr]
        have hprops : ∀ l ∈ ([AnswerStore.bannerLine scope c.key,
                  AnswerStore.fmt20 "Label:" c.label,
                  AnswerStore.fmt20 "Description:" c.description,
                  AnswerStore.fmt20 "Type:" c.value_type.name,
                  AnswerStore.fmt20 "Default:" c.default.pyStr] ++
                 ["# Unanswered question. Uncomment the following line with your answer",
                  "# " ++ c.key ++ " = " ++
                    (if c.default.truthy then c.default else Value.str "").pyStr,
                  ""]), cleanS l ∧ skippableLine l := by
          intro l hl
          rcases List.mem_append.mp hl with hl | hl
          · exact headerBlock_props scope c c.default hsc hkcl hlab hdesc hdefcl l hl
          · simp only [List.mem_cons, List.not_mem_nil, or_false] at hl
            rcases hl with rfl | rfl | rfl
            · exact ⟨by decide, skippable_hash _ rfl⟩
            · exact ⟨cleanS_append _ _ (cleanS_append _ _ (cleanS_append _ _ (by decide)
                hkcl) (by decide)) hsugcl, skippable_hash _ rfl⟩
            · exact ⟨by decide, skippable_blank⟩
        exact ⟨_, hcomp, fun l hl => (hprops l hl).1,
          Or.inr ⟨renderedAnswer?_falsy st scope c htr, fun l hl => (hprops l hl).2⟩⟩
  | some chs =>
      by_cases hvt : c.value_type = ValueType.tuple
      · -- multi-choice component
        obtain ⟨-, ds, hds, hdscl⟩ := htup hvt
        have hjd : pyJoin c.default = .ok (joinCh ';' ds) := by rw [hds]; rfl
        have hdjcl : cleanS (Value.str (joinCh ';' ds)).pyStr :=
          joinCh_clean_nl ds (fun x hx ch hch => (hdscl x hx ch hch).2)
        by_cases htr : (storedAnswer st scope c).truthy = true
        · -- answered: active joined line
          have ga := ha htr
          unfold GoodAnswer at ga
          rw [hvt] at ga
          obtain ⟨xs, hxs, hxne, hnodup, hxcl, hxch⟩ := ga
          have hxs' : (((st.find? scope).getD []).get c.key) = Value.tuple xs := hxs
          have hja : pyJoin (storedAnswer st scope c)
              = .ok (joinCh ';' xs) := by rw [hxs]; rfl
          have hjne : joinCh ';' xs ≠ "" := by
            cases xs with
            | nil => cases hxne rfl
            | cons x ys => exact joinCh_ne_empty x ys (hxcl x (by simp)).1
          have hjtr : (Value.str (joinCh ';' xs)).truthy = true := by
            simp [Value.truthy, hjne]
          have htr' : (((st.find? scope).getD []).get c.key).truthy = true := htr
          have hjcl : cleanS (joinCh ';' xs) :=
            joinCh_clean_nl xs
              (fun x hx ch hch => not_ws_ne_nl ch ((hxcl x hx).2 ch hch).2)
          have hjst : pyStrip (joinCh ';' xs) = joinCh ';' xs :=
            joinCh_strip_stable xs (fun x hx ch hch => (hxcl x hx).2 ch hch)
          have hcomp : AnswerStore.componentLines st scope c =
              .ok ([AnswerStore.bannerLine scope c.key,
                    AnswerStore.fmt20 "Label:" c.label,
                    AnswerStore.fmt20 "Description:" c.description,
                    AnswerStore.fmt20 "Type:" c.value_type.name,
                    AnswerStore.fmt20 "Default:" (Value.str (joinCh ';' ds)).pyStr] ++
                   ("# Available choices:" ::
                     chs.map (fun choice => "# - " ++ choice)) ++
                   ("#" :: "# Values are separated by semi-colon \";\"" ::
                     (c.key ++ " = " ++ (Value.str (joinCh ';' xs)).pyStr) :: [""])) := by
            unfold AnswerStore.componentLines
            rw [hc]
            simp [hvt, hjd, hja, hX, htr, hjtr, exceptBind_ok]
          refine ⟨_, hcomp, ?_, Or.inl ⟨[AnswerStore.bannerLine scope c.key,
              AnswerStore.fmt20 "Label:" c.label,
              AnswerStore.fmt20 "Description:" c.description,
              AnswerStore.fmt20 "Type:" c.value_type.name,
              AnswerStore.fmt20 "Default:" (Value.str (joinCh ';' ds)).pyStr] ++
              ("# Available choices:" :: chs.map (fun choice => "# - " ++ choice)) ++
              ["#", "# Values are separated by semi-colon \";\""], [""],
              joinCh ';' xs,
              renderedAnswer?_join st scope c xs htr hxs, by simp [Value.pyStr], ?_,
              fun l hl => by
                rw [List.mem_singleton.mp hl]
                exact skippable_blank,
              hjst⟩⟩
          · intro l hl
            rcases List.mem_append.mp hl with hl | hl
            · rcases List.mem_append.mp hl with hl | hl
              · exact (headerBlock_props scope c (Value.str (joinCh ';' ds)) hsc hkcl
                  hlab hdesc hdjcl l hl).1
              · exact (choicesBlock_props chs (hchcl chs hc) l hl).1
            · simp only [List.mem_cons, List.not_mem_nil, or_false] at hl
              rcases hl with rfl | rfl | rfl | rfl
              · decide
              · decide
              · exact cleanS_append _ _ (cleanS_append _ _ hkcl (by decide)) hjcl
              · decide
          · intro l hl
            rcases List.mem_append.mp hl with hl | hl
            · rcases List.mem_append.mp hl with hl | hl
              · exact (headerBlock_props scope c (Value.str (joinCh ';' ds)) hsc hkcl
                  hlab hdesc hdjcl l hl).2
              · exact (choicesBlock_props chs (hchcl chs hc) l hl).2
            · simp only [List.mem_cons, List.not_mem_nil, or_false] at hl
              rcases hl with rfl | rfl
              · exact skippable_hash _ rfl
              · exact skippable_hash _ rfl
        · -- unanswered multi-choice
          rw [Bool.not_eq_true] at htr
          have htr' : (((st.find? scope).getD []).get c.key).truthy = false := htr
          have hsugcl : cleanS
              (if (Value.str (joinCh ';' ds)).truthy then Value.str (joinCh ';' ds)
               else Value.str "").pyStr := by
            split
            · exact hdjcl
            · decide
          have hcomp : AnswerStore.componentLines st scope c =
              .ok ([AnswerStore.bannerLine scope c.key,
                    AnswerStore.fmt20 "Label:" c.label,
                    AnswerStore.fmt20 "Description:" c.description,
                    AnswerStore.fmt20 "Type:" c.value_type.name,
                    AnswerStore.fmt20 "Default:" (Value.str (joinCh ';' ds)).pyStr] ++
                   ("# Available choices:" ::
                     chs.map (fun choice => "# - " ++ choice)) ++
                   ("#" :: "# Values are separated by semi-colon \";\"" ::
                    "# Unanswered question. Uncomment the following line with your answer" ::
                    ("# " ++ c.key ++ " = " ++
                      (if (Value.str (joinCh ';' ds)).truthy then Value.str (joinCh ';' ds)
                       else Value.str "").pyStr) :: [""])) := by
            unfold AnswerStore.componentLines
            rw [hc]
            simp [hvt, hjd, hX, htr, exceptBind_ok]
          have hprops : ∀ l ∈ ([AnswerStore.bannerLine scope c.key,
                    AnswerStore.fmt20 "Label:" c.label,
                    AnswerStore.fmt20 "Description:" c.description,
                    AnswerStore.fmt20 "Type:" c.value_type.name,
                    AnswerStore.fmt20 "Default:" (Value.str (joinCh ';' ds)).pyStr] ++
                   ("# Available choices:" ::
                     chs.map (fun choice => "# - " ++ choice)) ++
                   ("#" :: "# Values are separated by semi-colon \";\"" ::
                    "# Unanswered question. Uncomment the following line with your answer" ::
                    ("# " ++ c.key ++ " = " ++
                      (if (Value.str (joinCh ';' ds)).truthy then Value.str (joinCh ';' ds)
                       else Value.str "").pyStr) :: [""])),
              cleanS l ∧ skippableLine l := by
            intro l hl
            rcases List.mem_append.mp hl with hl | hl
            · rcases List.mem_append.mp hl with hl | hl
              · exact headerBlock_props scope c (Value.str (joinCh ';' ds)) hsc hkcl
                  hlab hdesc hdjcl l hl
              · exact choicesBlock_props chs (hchcl chs hc) l hl
            · simp only [List.mem_cons, List.not_mem_nil, or_false] at hl
              rcases hl with rfl | rfl | rfl | rfl | rfl
              · exact ⟨by decide, skippable_hash _ rfl⟩
              · exact ⟨by decide, skippable_hash _ rfl⟩
              · exact ⟨by decide, skippable_hash _ rfl⟩
              · exact ⟨cleanS_append _ _ (cleanS_append _ _ (cleanS_append _ _ (by decide)
                  hkcl) (by decide)) hsugcl, skippable_hash _ rfl⟩
              · exact ⟨by decide, skippable_blank⟩
          exact ⟨_, hcomp, fun l hl => (hprops l hl).1,
            Or.inr ⟨renderedAnswer?_falsy st scope c htr, fun l hl => (hprops l hl).2⟩⟩
      · -- choice-restricted (non-tuple) component with a choices attribute
        by_cases htr : (storedAnswer st scope c).truthy = true
        · have ga := ha htr
          obtain ⟨hrvcl, hrvst, hnt⟩ := goodAnswer_render c _ hvt ga
          have htr' : (((st.find? scope).getD []).get c.key).truthy = true := htr
          have hcomp : AnswerStore.componentLines st scope c =
              .ok ([AnswerStore.bannerLine scope c.key,
                    AnswerStore.fmt20 "Label:" c.label,
                    AnswerStore.fmt20 "Description:" c.description,
                    AnswerStore.fmt20 "Type:" c.value_type.name,
                    AnswerStore.fmt20 "Default:" c.default.pyStr] ++
                   ("# Available choices:" ::
                     chs.map (fun choice => "# - " ++ choice)) ++
                   (c.key ++ " = " ++ (storedAnswer st scope c).pyStr) :: [""]) := by
            unfold AnswerStore.componentLines
            rw [hc]
            simp [hvt, hX, htr]
          refine ⟨_, hcomp, ?_, Or.inl ⟨[AnswerStore.bannerLine scope c.key,
              AnswerStore.fmt20 "Label:" c.label,
              AnswerStore.fmt20 "Description:" c.description,
              AnswerStore.fmt20 "Type:" c.value_type.name,
              AnswerStore.fmt20 "Default:" c.default.pyStr] ++
              ("# Available choices:" :: chs.map (fun choice => "# - " ++ choice)), [""],
              (storedAnswer st scope c).pyStr,
              renderedAnswer?_pyStr st scope c htr hnt, by simp, ?_,
              fun l hl => by
                rw [List.mem_singleton.mp hl]
                exact skippable_blank,
              hrvst⟩⟩
          · intro l hl
            rcases List.mem_append.mp hl with hl | hl
            · rcases List.mem_append.mp hl with hl | hl
              · exact (headerBlock_props scope c c.default hsc hkcl hlab hdesc
                  hdefcl l hl).1
              · exact (choicesBlock_props chs (hchcl chs hc) l hl).1
            · rcases List.mem_cons.mp hl with rfl | hl
              · exact cleanS_append _ _ (cleanS_append _ _ hkcl (by decide)) hrvcl
              · rw [List.mem_singleton.mp hl]
                decide
          · intro l hl
            rcases List.mem_append.mp hl with hl | hl
            · exact (headerBlock_props scope c c.default hsc hkcl hlab hdesc
                hdefcl l hl).2
            · exact (choicesBlock_props chs (hchcl chs hc) l hl).2
        · rw [Bool.not_eq_true] at htr
          have htr' : (((st.find? scope).getD []).get c.key).truthy = false := htr
          have hsugcl : cleanS (if c.default.truthy then c.default
              else Value.str "").pyStr := by
            split
            · exact hdefcl
            · decide
          have hcomp : AnswerStore.componentLines st scope c =
              .ok ([AnswerStore.bannerLine scope c.key,
                    AnswerStore.fmt20 "Label:" c.label,
                    AnswerStore.fmt20 "Description:" c.description,
                    AnswerStore.fmt20 "Type:" c.value_type.name,
                    AnswerStore.fmt20 "Default:" c.default.pyStr] ++
                   ("# Available choices:" ::
                     chs.map (fun choice => "# - " ++ choice)) ++
                   ["# Unanswered question. Uncomment the following line with your answer",
                    "# " ++ c.key ++ " = " ++
                      (if c.default.truthy then c.default else Value.str "").pyStr,
                    ""]) := by
            unfold AnswerStore.componentLines
            rw [hc]
            simp [hvt, hX, htr]
          have hprops : ∀ l ∈ ([AnswerStore.bannerLine scope c.key,
                    AnswerStore.fmt20 "Label:" c.label,
                    AnswerStore.fmt20 "Description:" c.description,
                    AnswerStore.fmt20 "Type:" c.value_type.name,
                    AnswerStore.fmt20 "Default:" c.default.pyStr] ++
                   ("# Available choices:" ::
                     chs.map (fun choice => "# - " ++ choice)) ++
                   ["# Unanswered question. Uncomment the following line with your answer",
                    "# " ++ c.key ++ " = " ++
                      (if c.default.truthy then c.default else Value.str "").pyStr,
                    ""]), cleanS l ∧ skippableLine l := by
            intro l hl
            rcases List.mem_append.mp hl with hl | hl
            · rcases List.mem_append.mp hl with hl | hl
              · exact headerBlock_props scope c c.default hsc hkcl hlab hdesc hdefcl l hl
              · exact choicesBlock_props chs (hchcl chs hc) l hl
            · simp only [List.mem_cons, List.not_mem_nil, or_false] at hl
              rcases hl with rfl | rfl | rfl
              · exact ⟨by decide, skippable_hash _ rfl⟩
              · exact ⟨cleanS_append _ _ (cleanS_append _ _ (cleanS_append _ _ (by decide)
                  hkcl) (by decide)) hsugcl, skippable_hash _ rfl⟩
              · exact ⟨by decide, skippable_blank⟩
          exact ⟨_, hcomp, fun l hl => (hprops l hl).1,
            Or.inr ⟨renderedAnswer?_falsy st scope c htr, fun l hl => (hprops l hl).2⟩⟩

/-! #### parsing the generated blocks -/

theorem AnswerStore.parse_block_active (pre post : List String) (k rv : String)
    (rest : List String) (sec : String) (acc : Storage) (hk : goodKey k)
    (hrv : pyStrip rv = rv)
    (hpre : ∀ l ∈ pre, skippableLine l) (hpost : ∀ l ∈ post, skippableLine l) :
    AnswerStore.parseLinesAux ((pre ++ (k ++ " = " ++ rv) :: post) ++ rest) (some sec) acc =
      AnswerStore.parseLinesAux rest (some sec)
        (Storage.set acc sec
          (Entry.set ((assocFind? acc sec).getD []) k (Value.str rv))) := by
  rw [List.append_assoc, AnswerStore.parseLinesAux_skipAll pre _ _ _ hpre,
    List.cons_append,
    AnswerStore.parseLinesAux_option k rv (post ++ rest) sec acc hk.1 hk.2.1 hk.2.2.1
      (fun ch hch => ⟨(hk.2.2.2.1 ch hch).1, (hk.2.2.2.1 ch hch).2.1⟩)
      (fun ch hch => hk.2.2.2.2 ch hch) hrv,
    AnswerStore.parseLinesAux_skipAll post rest _ _ hpost]

theorem AnswerStore.parse_componentLines (st : Storage) (scope sec : String)
    (c : Component) (rest : List String) (acc : Storage)
    (hsc : cleanS scope) (hg : GoodComponent c) (ha : AnswerOK st scope c) :
    ∃ ls : List String,
      AnswerStore.componentLines st scope c = .ok ls ∧ (∀ l ∈ ls, cleanS l) ∧
      AnswerStore.parseLinesAux (ls ++ rest) (some sec) acc =
        AnswerStore.parseLinesAux rest (some sec)
          (match renderedAnswer? st scope c with
           | some rv => Storage.set acc sec
               (Entry.set ((assocFind? acc sec).getD []) c.key (Value.str rv))
           | Option.none => acc) := by
  obtain ⟨ls, hcl, hclean, hdisj⟩ := AnswerStore.componentLines_shape st scope c hsc hg ha
  refine ⟨ls, hcl, hclean, ?_⟩
  rcases hdisj with ⟨pre, post, rv, hra, hls, hpre, hpost, hrv⟩ | ⟨hra, hskip⟩
  · rw [hra, hls]
    exact AnswerStore.parse_block_active pre post c.key rv rest sec acc hg.1 hrv hpre hpost
  · rw [hra]
    exact AnswerStore.parseLinesAux_skipAll ls rest (some sec) acc hskip

/-- The entry the answer-file section for a dialog parses back to: the
rendered string of every truthy-answered component, in component order. -/
def sectionEntryAux (st : Storage) (scope : String) (cs : List Component) (e : Entry) :
    Entry :=
  cs.foldl (fun e c =>
    match renderedAnswer? st scope c with
    | some rv => e.set c.key (Value.str rv)
    | Option.none => e) e

def sectionEntry (st : Storage) (d : Dialog) : Entry :=
  sectionEntryAux st d.scope d.components []

theorem sectionEntryAux_cons (st : Storage) (scope : String) (c : Component)
    (cs : List Component) (e : Entry) :
    sectionEntryAux st scope (c :: cs) e =
      sectionEntryAux st scope cs
        (match renderedAnswer? st scope c with
         | some rv => e.set c.key (Value.str rv)
         | Option.none => e) := rfl

theorem sectionEntryAux_find_other (st : Storage) (scope : String) (cs : List Component)
    (e : Entry) (k : String) (h : ∀ c ∈ cs, c.key ≠ k) :
    (sectionEntryAux st scope cs e).find? k = e.find? k := by
  induction cs generalizing e with
  | nil => rfl
  | cons c cs ih =>
      rw [sectionEntryAux_cons]
      rw [ih _ (fun c' hc' => h c' (List.mem_cons_of_mem c hc'))]
      cases hro : renderedAnswer? st scope c with
      | none => rfl
      | some rv =>
          exact Entry.find?_set_ne e c.key k (Value.str rv) (fun he => h c (by simp) he.symm)

theorem sectionEntryAux_find_mem (st : Storage) (scope : String) (cs : List Component)
    (e : Entry) (c : Component) (hc : c ∈ cs)
    (hnodup : (cs.map Component.key).Nodup) :
    (sectionEntryAux st scope cs e).find? c.key =
      (match renderedAnswer? st scope c with
       | some rv => some (Value.str rv)
       | Option.none => e.find? c.key) := by
  induction cs generalizing e with
  | nil => cases hc
  | cons c₁ cs ih =>
      rw [List.map_cons, List.nodup_cons] at hnodup
      obtain ⟨hk₁, hnd⟩ := hnodup
      rcases List.mem_cons.mp hc with rfl | hc'
      · rw [sectionEntryAux_cons,
          sectionEntryAux_find_other st scope cs _ c.key
            (fun c' hc' he => hk₁ (he ▸ List.mem_map_of_mem Component.key hc'))]
        cases hro : renderedAnswer? st scope c with
        | none => rfl
        | some rv => exact Entry.find?_set_self e c.key (Value.str rv)
      · rw [sectionEntryAux_cons, ih _ hc' hnd]
        cases hro : renderedAnswer? st scope c with
        | none =>
            cases hro₁ : renderedAnswer? st scope c₁ with
            | none => rfl
            | some rv₁ =>
                exact Entry.find?_set_ne e c₁.key c.key (Value.str rv₁)
                  (fun he => hk₁ (he ▸ List.mem_map_of_mem Component.key hc'))
        | some rv => rfl

theorem AnswerStore.parse_componentList (st : Storage) (scope sec : String)
    (cs : List Component) (rest : List String) (acc : Storage) (E : Entry)
    (hsec : assocFind? acc sec = some E)
    (hsc : cleanS scope)
    (hgs : ∀ c ∈ cs, GoodComponent c ∧ AnswerOK st scope c) :
    ∃ blocks : List (List String),
      cs.mapM (AnswerStore.componentLines st scope) = .ok blocks ∧
      (∀ l ∈ blocks.flatten, cleanS l) ∧
      AnswerStore.parseLinesAux (blocks.flatten ++ rest) (some sec) acc =
        AnswerStore.parseLinesAux rest (some sec)
          (Storage.set acc sec (sectionEntryAux st scope cs E)) := by
  induction cs generalizing rest acc E with
  | nil =>
      refine ⟨[], rfl, by simp, ?_⟩
      show AnswerStore.parseLinesAux rest (some sec) acc = _
      rw [show sectionEntryAux st scope [] E = E from rfl,
        show Storage.set acc sec E = acc from assocSet_eq_self acc sec E hsec]
  | cons c cs ih =>
      obtain ⟨ls, hcl, hclean, hparse⟩ :=
        AnswerStore.parse_componentLines st scope sec c [] acc hsc
          (hgs c (by simp)).1 (hgs c (by simp)).2
      -- the accumulator and entry after this component
      set E₁ : Entry := (match renderedAnswer? st scope c with
        | some rv => Entry.set E c.key (Value.str rv)
        | Option.none => E) with hE₁
      set acc₁ : Storage := (match renderedAnswer? st scope c with
        | some rv => Storage.set acc sec (Entry.set E c.key (Value.str rv))
        | Option.none => acc) with hacc₁
      have hgetE : (assocFind? acc sec).getD [] = E := by rw [hsec]; rfl
      have hparse' : ∀ r : List String,
          AnswerStore.parseLinesAux (ls ++ r) (some sec) acc =
            AnswerStore.parseLinesAux r (some sec) acc₁ := by
        intro r
        obtain ⟨ls', hcl', -, hp⟩ :=
          AnswerStore.parse_componentLines st scope sec c r acc hsc
            (hgs c (by simp)).1 (hgs c (by simp)).2
        have : ls' = ls := by
          rw [hcl] at hcl'
          exact (Except.ok.inj hcl').symm
        rw [← this, hp, hacc₁, hgetE]
      have hsec₁ : assocFind? acc₁ sec = some E₁ := by
        rw [hacc₁, hE₁]
        cases renderedAnswer? st scope c with
        | none => exact hsec
        | some rv => exact Storage.find?_set_same acc sec _
      obtain ⟨blocks, hmap, hcleanb, hparse₂⟩ :=
        ih rest acc₁ E₁ hsec₁ (fun c' hc' => hgs c' (List.mem_cons_of_mem c hc'))
      refine ⟨ls :: blocks, ?_, ?_, ?_⟩
      · rw [List.mapM_cons, hcl, exceptBind_ok, hmap, exceptBind_ok]
        rfl
      · intro l hl
        rw [List.flatten_cons] at hl
        rcases List.mem_append.mp hl with hl | hl
        · exact hclean l hl
        · exact hcleanb l hl
      · rw [List.flatten_cons, List.append_assoc, hparse' (blocks.flatten ++ rest),
          hparse₂, sectionEntryAux_cons]
        congr 1
        rw [hacc₁, hE₁]
        cases renderedAnswer? st scope c with
        | none => rfl
        | some rv => exact assocSet_assocSet acc sec _ _

theorem AnswerStore.parse_dialogLines (st : Storage) (d : Dialog) (rest : List String)
    (acc : Storage) (cur : Option String)
    (hgd : GoodDialog st d) (hfresh : assocFind? acc d.scope = Option.none) :
    ∃ ls, AnswerStore.dialogLines st d = .ok ls ∧ (∀ l ∈ ls, cleanS l) ∧
      ((d.components = [] ∧
        AnswerStore.parseLinesAux (ls ++ rest) cur acc =
          AnswerStore.parseLinesAux rest cur acc) ∨
       (d.components ≠ [] ∧
        AnswerStore.parseLinesAux (ls ++ rest) cur acc =
          AnswerStore.parseLinesAux rest (some d.scope)
            (Storage.set acc d.scope (sectionEntry st d)))) := by
  obtain ⟨hscope, htl, hrs, hnd, hcomps⟩ := hgd
  have hsccl : cleanS d.scope := cleanS_of_goodScope d.scope hscope
  by_cases hcs : d.components = []
  · have hcomp : AnswerStore.dialogLines st d = .ok [] := by
      unfold AnswerStore.dialogLines
      simp [hcs]
    exact ⟨[], hcomp, by simp, Or.inl ⟨hcs, rfl⟩⟩
  · have hsec0 : assocFind? (Storage.set acc d.scope []) d.scope = some [] :=
      Storage.find?_set_same acc d.scope []
    obtain ⟨blocks, hmap, hcleanb, hparse⟩ :=
      AnswerStore.parse_componentList st d.scope d.scope d.components rest
        (Storage.set acc d.scope []) [] hsec0 hsccl hcomps
    have hcomp : AnswerStore.dialogLines st d =
        .ok (("[" ++ d.scope ++ "]") ::
             AnswerStore.fmt20 "Title:" d.title ::
             AnswerStore.fmt20 "Reason:" d.reason :: blocks.flatten) := by
      unfold AnswerStore.dialogLines
      rw [if_neg hcs, hmap]
      rw [exceptBind_ok]
      rfl
    refine ⟨_, hcomp, ?_, Or.inr ⟨hcs, ?_⟩⟩
    · intro l hl
      simp only [List.mem_cons] at hl
      rcases hl with rfl | rfl | rfl | hl
      · refine cleanS_append _ _ (cleanS_append _ _ (by decide) hsccl) (by decide)
      · exact cleanS_fmt20 _ _ (by decide) htl
      · exact cleanS_fmt20 _ _ (by decide) hrs
      · exact hcleanb l hl
    · show AnswerStore.parseLinesAux
        (("[" ++ d.scope ++ "]") ::
          AnswerStore.fmt20 "Title:" d.title ::
          AnswerStore.fmt20 "Reason:" d.reason :: (blocks.flatten ++ rest)) cur acc = _
      rw [AnswerStore.parseLinesAux_header d.scope _ cur acc hscope.1
          (fun c hc => (hscope.2 c hc).1) hfresh,
        AnswerStore.parseLinesAux_skip (AnswerStore.fmt20 "Title:" d.title) _ _ _
          (skippable_hash (AnswerStore.fmt20 "Title:" d.title) rfl),
        AnswerStore.parseLinesAux_skip (AnswerStore.fmt20 "Reason:" d.reason) _ _ _
          (skippable_hash (AnswerStore.fmt20 "Reason:" d.reason) rfl),
        hparse]
      rw [show Storage.set (Storage.set acc d.scope ([] : Entry)) d.scope
          (sectionEntryAux st d.scope d.components []) = _ from
        assocSet_assocSet acc d.scope [] _]
      rfl

/-- The sections of the generated file, as `load` stores them back. -/
def parsedSections (st : Storage) (dialogs : List Dialog) (acc : Storage) : Storage :=
  dialogs.foldl (fun acc d =>
    if d.components = [] then acc else Storage.set acc d.scope (sectionEntry st d)) acc

theorem parsedSections_cons (st : Storage) (d : Dialog) (ds : List Dialog) (acc : Storage) :
    parsedSections st (d :: ds) acc =
      parsedSections st ds
        (if d.components = [] then acc else Storage.set acc d.scope (sectionEntry st d)) :=
  rfl

theorem AnswerStore.parse_generateLines (st : Storage) (dialogs : List Dialog)
    (acc : Storage) (cur : Option String)
    (hnd : (dialogs.map Dialog.scope).Nodup)
    (hgds : ∀ d ∈ dialogs, GoodDialog st d)
    (hfresh : ∀ d ∈ dialogs, assocFind? acc d.scope = Option.none) :
    ∃ ls, AnswerStore.generateLines st dialogs = .ok ls ∧ (∀ l ∈ ls, cleanS l) ∧
      AnswerStore.parseLinesAux (ls ++ [""]) cur acc =
        .ok (parsedSections st dialogs acc) := by
  induction dialogs generalizing acc cur with
  | nil =>
      refine ⟨[], rfl, by simp, ?_⟩
      rw [List.nil_append,
        AnswerStore.parseLinesAux_skip _ _ _ _ skippable_blank]
      rfl
  | cons d ds ih =>
      rw [List.map_cons, List.nodup_cons] at hnd
      obtain ⟨hs₁, hnd'⟩ := hnd
      have hfresh' : ∀ d' ∈ ds,
          assocFind? (if d.components = [] then acc
            else Storage.set acc d.scope (sectionEntry st d)) d'.scope =
            Option.none := by
        intro d' hd'
        split
        · exact hfresh d' (List.mem_cons_of_mem d hd')
        · show assocFind? (assocSet acc d.scope (sectionEntry st d)) d'.scope = Option.none
          rw [assocFind?_assocSet_ne acc d.scope d'.scope _
            (fun he => hs₁ (he ▸ List.mem_map_of_mem Dialog.scope hd'))]
          exact hfresh d' (List.mem_cons_of_mem d hd')
      obtain ⟨ls₂, hgen₂, hclean₂, hparse₂⟩ :=
        ih (if d.components = [] then acc
            else Storage.set acc d.scope (sectionEntry st d))
          (if d.components = [] then cur else some d.scope)
          hnd' (fun d' hd' => hgds d' (List.mem_cons_of_mem d hd')) hfresh'
      obtain ⟨ls₁, hdl, hclean₁, hdisj⟩ :=
        AnswerStore.parse_dialogLines st d (ls₂ ++ [""]) acc cur
          (hgds d (by simp)) (hfresh d (by simp))
      have hgen : AnswerStore.generateLines st (d :: ds) = .ok (ls₁ ++ ls₂) := by
        unfold AnswerStore.generateLines at hgen₂ ⊢
        cases hm : ds.mapM (AnswerStore.dialogLines st) with
        | error err => rw [hm, exceptBind_err] at hgen₂; cases hgen₂
        | ok bs =>
            rw [hm, exceptBind_ok] at hgen₂
            rw [List.mapM_cons, hdl, exceptBind_ok, hm, exceptBind_ok]
            rw [show (ls₂ : List String) = bs.flatten from (Except.ok.inj hgen₂).symm]
            rfl
      refine ⟨ls₁ ++ ls₂, hgen, ?_, ?_⟩
      · intro l hl
        rcases List.mem_append.mp hl with hl | hl
        · exact hclean₁ l hl
        · exact hclean₂ l hl
      · rw [List.append_assoc]
        rcases hdisj with ⟨hcs, hp⟩ | ⟨hcs, hp⟩
        · rw [hp, parsedSections_cons, if_pos hcs]
          simp only [if_pos hcs] at hparse₂
          rw [hparse₂]
        · rw [hp, parsedSections_cons, if_neg hcs]
          simp only [if_neg hcs] at hparse₂
          rw [hparse₂]

theorem assocFind?_eq_none_iff {α : Type} (m : List (String × α)) (k : String) :
    assocFind? m k = Option.none ↔ k ∉ m.map Prod.fst := by
  induction m with
  | nil => simp [assocFind?]
  | cons kv m ih =>
      obtain ⟨k', v⟩ := kv
      by_cases hk : k' = k
      · subst hk
        simp [assocFind?]
      · simp [assocFind?, hk, ih, Ne.symm hk]

theorem assocSet_absent {α : Type} (m : List (String × α)) (k : String) (v : α)
    (h : assocFind? m k = Option.none) : assocSet m k v = m ++ [(k, v)] := by
  induction m with
  | nil => rfl
  | cons kv m ih =>
      obtain ⟨k', w⟩ := kv
      by_cases hk : k' = k
      · subst hk
        simp [assocFind?] at h
      · simp only [assocFind?, if_neg hk] at h
        simp [assocSet, hk, ih h]

theorem assocFind?_append {α : Type} (a b : List (String × α)) (k : String) :
    assocFind? (a ++ b) k =
      (match assocFind? a k with
       | some v => some v
       | Option.none => assocFind? b k) := by
  induction a with
  | nil => rfl
  | cons kv a ih =>
      obtain ⟨k', v⟩ := kv
      by_cases hk : k' = k
      · subst hk
        simp [assocFind?]
      · simp [assocFind?, hk, ih]

theorem foldl_storageSet_fresh (m acc : Storage)
    (hfr : ∀ kv ∈ m, assocFind? acc kv.1 = Option.none)
    (hnd : (m.map Prod.fst).Nodup) :
    m.foldl (fun a kv => Storage.set a kv.1 kv.2) acc = acc ++ m := by
  induction m generalizing acc with
  | nil => simp
  | cons kv m ih =>
      obtain ⟨k, v⟩ := kv
      rw [List.map_cons, List.nodup_cons] at hnd
      rw [List.foldl_cons]
      have hset : Storage.set acc k v = acc ++ [(k, v)] :=
        assocSet_absent acc k v (hfr (k, v) (by simp))
      rw [hset, ih (acc ++ [(k, v)])
        (by
          intro kv' hkv'
          rw [assocFind?_append]
          rw [hfr kv' (List.mem_cons_of_mem _ hkv')]
          show assocFind? [(k, v)] kv'.1 = Option.none
          have hne : k ≠ kv'.1 := by
            intro he
            have hmem := List.mem_map_of_mem Prod.fst hkv'
            rw [← he] at hmem
            exact hnd.1 hmem
          simp [assocFind?, hne])
        hnd.2]
      simp

theorem parsedSections_find_other (st : Storage) (ds : List Dialog) (acc : Storage)
    (s : String) (h : ∀ d ∈ ds, d.scope ≠ s) :
    Storage.find? (parsedSections st ds acc) s = Storage.find? acc s := by
  induction ds generalizing acc with
  | nil => rfl
  | cons d ds ih =>
      rw [parsedSections_cons, ih _ (fun d' hd' => h d' (List.mem_cons_of_mem d hd'))]
      split
      · rfl
      · exact Storage.find?_set_other acc d.scope s _ (fun he => h d (by simp) he.symm)

theorem parsedSections_find_mem (st : Storage) (ds : List Dialog) (acc : Storage)
    (d : Dialog) (hd : d ∈ ds) (hnd : (ds.map Dialog.scope).Nodup) :
    Storage.find? (parsedSections st ds acc) d.scope =
      if d.components = [] then Storage.find? acc d.scope
      else some (sectionEntry st d) := by
  induction ds generalizing acc with
  | nil => cases hd
  | cons d₁ ds ih =>
      rw [List.map_cons, List.nodup_cons] at hnd
      rcases List.mem_cons.mp hd with rfl | hd'
      · rw [parsedSections_cons,
          parsedSections_find_other st ds _ d.scope
            (fun d' hd' he => hnd.1 (he ▸ List.mem_map_of_mem Dialog.scope hd'))]
        split
        · rfl
        · exact Storage.find?_set_same acc d.scope _
      · rw [parsedSections_cons, ih _ hd' hnd.2]
        split
        · split
          · rfl
          · exact Storage.find?_set_other acc d₁.scope d.scope _
              (fun he => hnd.1 (he ▸ List.mem_map_of_mem Dialog.scope hd'))
        · rfl

theorem parsedSections_keys (st : Storage) (ds : List Dialog) (acc : Storage)
    (hfr : ∀ d ∈ ds, assocFind? acc d.scope = Option.none)
    (hnd : (ds.map Dialog.scope).Nodup)
    (hacc : (acc.map Prod.fst).Nodup) :
    ((parsedSections st ds acc).map Prod.fst).Nodup := by
  induction ds generalizing acc with
  | nil => exact hacc
  | cons d ds ih =>
      rw [List.map_cons, List.nodup_cons] at hnd
      rw [parsedSections_cons]
      by_cases hcs : d.components = []
      · rw [if_pos hcs]
        exact ih acc (fun d' hd' => hfr d' (List.mem_cons_of_mem d hd')) hnd.2 hacc
      · rw [if_neg hcs]
        have habs := hfr d (by simp)
        have hset : Storage.set acc d.scope (sectionEntry st d)
            = acc ++ [(d.scope, sectionEntry st d)] :=
          assocSet_absent acc d.scope _ habs
        refine ih _ ?_ hnd.2 ?_
        · intro d' hd'
          rw [hset, assocFind?_append, hfr d' (List.mem_cons_of_mem d hd')]
          show assocFind? [(d.scope, sectionEntry st d)] d'.scope = Option.none
          have : d.scope ≠ d'.scope :=
            fun he => hnd.1 (he ▸ List.mem_map_of_mem Dialog.scope hd')
          simp [assocFind?, this]
        · rw [hset, List.map_append, List.nodup_append]
          refine ⟨hacc, by simp, ?_⟩
          intro x hx
          simp only [List.map_cons, List.map_nil, List.mem_singleton]
          intro he
          rw [assocFind?_eq_none_iff] at habs
          rw [he] at hx
          exact habs hx

theorem AnswerStore.load_generate (st : Storage) (dialogs : List Dialog)
    (hnd : (dialogs.map Dialog.scope).Nodup)
    (hgds : ∀ d ∈ dialogs, GoodDialog st d) :
    ∃ file : String, AnswerStore.generate st dialogs = .ok file ∧
      AnswerStore.load [] file = .ok (parsedSections st dialogs []) := by
  obtain ⟨ls, hgen, hclean, hparse⟩ :=
    AnswerStore.parse_generateLines st dialogs [] Option.none hnd hgds
      (fun d hd => rfl)
  refine ⟨AnswerStore.unlines ls, ?_, ?_⟩
  · unfold AnswerStore.generate
    rw [hgen, exceptBind_ok]
  · unfold AnswerStore.load
    rw [show splitCh '\n' (AnswerStore.unlines ls) = ls ++ [""] from
      splitCh_unlines ls (fun l hl => hclean l hl), hparse, exceptBind_ok]
    rw [foldl_storageSet_fresh (parsedSections st dialogs []) []
      (fun kv hkv => rfl)
      (parsedSections_keys st dialogs [] (fun d hd => rfl) hnd (by simp))]
    rfl

/-! #### translate re-coerces the loaded strings to the original values -/

theorem renderedAnswer?_truthy_some (st : Storage) (scope : String) (c : Component)
    (htr : (storedAnswer st scope c).truthy = true) :
    ∃ rv, renderedAnswer? st scope c = some rv := by
  cases hval : storedAnswer st scope c with
  | tuple xs => exact ⟨joinCh ';' xs, renderedAnswer?_join st scope c xs htr hval⟩
  | str s =>
      exact ⟨_, renderedAnswer?_pyStr st scope c htr (fun xs h => by rw [hval] at h; cases h)⟩
  | bool b =>
      exact ⟨_, renderedAnswer?_pyStr st scope c htr (fun xs h => by rw [hval] at h; cases h)⟩
  | int n =>
      exact ⟨_, renderedAnswer?_pyStr st scope c htr (fun xs h => by rw [hval] at h; cases h)⟩
  | none =>
      exact ⟨_, renderedAnswer?_pyStr st scope c htr (fun xs h => by rw [hval] at h; cases h)⟩

theorem AnswerStore.translateComponent_reproduce (st : Storage) (scope : String)
    (c : Component) (E : Entry) (rv : String)
    (hg : GoodComponent c)
    (htr : (storedAnswer st scope c).truthy = true)
    (ga : GoodAnswer c (storedAnswer st scope c))
    (hra : renderedAnswer? st scope c = some rv)
    (hE : E.find? c.key = some (Value.str rv)) :
    AnswerStore.translateComponent E c =
      .ok (E.set c.key (storedAnswer st scope c),
           { c with value := storedAnswer st scope c }) := by
  unfold GoodAnswer at ga
  cases hvt : c.value_type with
  | bool =>
      rw [hvt] at ga
      have hrv : rv = "True" := by
        have h1 := renderedAnswer?_pyStr st scope c htr
          (fun xs h => by rw [ga] at h; cases h)
        rw [hra, ga] at h1
        exact Option.some.inj h1
      subst hrv
      have hb : AnswerStore.applyBranch c E "True" =
          .ok (E.set c.key (Value.bool true)) := by
        unfold AnswerStore.applyBranch
        rw [hvt]
        simp only [show decide (pyLower "True" = "true") = true from by decide]
      rw [AnswerStore.translateComponent_ok E c "True" _ hE hb, Entry.get_set_self, ga, hvt]
  | int =>
      rw [hvt] at ga
      obtain ⟨n, hn⟩ := ga
      have hrv : rv = intRepr n := by
        have h1 := renderedAnswer?_pyStr st scope c htr
          (fun xs h => by rw [hn] at h; cases h)
        rw [hra, hn] at h1
        exact Option.some.inj h1
      subst hrv
      have hb : AnswerStore.applyBranch c E (intRepr n) =
          .ok (E.set c.key (Value.int n)) := by
        unfold AnswerStore.applyBranch
        rw [hvt, pyInt?_intRepr n]
      rw [AnswerStore.translateComponent_ok E c (intRepr n) _ hE hb,
        Entry.get_set_self, hn, hvt]
  | tuple =>
      rw [hvt] at ga
      obtain ⟨xs, hxs, hxne, hnodup, hxcl, hxch⟩ := ga
      obtain ⟨hcso, -⟩ := hg.2.2.2.2.1 hvt
      obtain ⟨chs, hc⟩ := Option.isSome_iff_exists.mp hcso
      have hrv : rv = joinCh ';' xs := by
        have h1 := renderedAnswer?_join st scope c xs htr hxs
        rw [hra] at h1
        exact Option.some.inj h1
      subst hrv
      have hsplit : splitCh ';' (joinCh ';' xs) = xs :=
        splitCh_joinCh ';' xs hxne
          (fun x hx hcm => ((hxcl x hx).2 ';' hcm).1 rfl)
      have hded : xs.dedup = xs := List.dedup_eq_self.mpr hnodup
      have hfil : xs.filter (fun x => decide (x ∈ chs)) = xs :=
        List.filter_eq_self.mpr (fun x hx => decide_eq_true (hxch chs hc x hx))
      have hb : AnswerStore.applyBranch c E (joinCh ';' xs) =
          .ok (E.set c.key (Value.tuple xs)) := by
        unfold AnswerStore.applyBranch
        rw [hvt, hc]
        show Except.ok (E.set c.key (Value.tuple
          (List.filter (fun x => decide (x ∈ chs)) (splitCh ';' (joinCh ';' xs)).dedup))) = _
        rw [hsplit, hded, hfil]
      rw [AnswerStore.translateComponent_ok E c (joinCh ';' xs) _ hE hb,
        Entry.get_set_self, hxs, hvt]
  | str =>
      rw [hvt] at ga
      obtain ⟨s, hs, hne, hstrip, hclean, hmem⟩ := ga
      have hrv : rv = s := by
        have h1 := renderedAnswer?_pyStr st scope c htr
          (fun xs h => by rw [hs] at h; cases h)
        rw [hra, hs] at h1
        exact Option.some.inj h1
      subst hrv
      cases hc : c.choices with
      | some chs =>
          have hb : AnswerStore.applyBranch c E rv = .ok (E.set c.key (Value.str rv)) := by
            unfold AnswerStore.applyBranch
            rw [hvt, hc]
            simp [hmem chs hc]
          rw [AnswerStore.translateComponent_ok E c rv _ hE hb, Entry.get_set_self, hs, hvt, hc]
      | none =>
          have hb : AnswerStore.applyBranch c E rv = .ok E := by
            unfold AnswerStore.applyBranch
            rw [hvt, hc]
          rw [AnswerStore.translateComponent_ok E c rv _ hE hb]
          rw [show Entry.set E c.key (storedAnswer st scope c) = E by
            rw [hs]
            exact Entry.set_eq_self E c.key _ hE]
          rw [show E.get c.key = storedAnswer st scope c by
            rw [Entry.get_eq_find, hE, hs]
            rfl]
          rw [hvt, hc]


theorem AnswerStore.translateLoop_reproduce (st : Storage) (scope : String)
    (cs : List Component) (E : Entry)
    (hnd : (cs.map Component.key).Nodup)
    (hgs : ∀ c ∈ cs, GoodComponent c ∧ AnswerOK st scope c)
    (hE : ∀ c ∈ cs, E.find? c.key =
      (match renderedAnswer? st scope c with
       | some rv => some (Value.str rv)
       | Option.none => Option.none)) :
    ∃ (E' : Entry) (cs' : List Component),
      AnswerStore.translateLoop E cs = .ok (E', cs') ∧
      (∀ k, (∀ c ∈ cs, c.key ≠ k) → E'.find? k = E.find? k) ∧
      List.Forall₂ (fun c c' =>
        (storedAnswer st scope c).truthy = true →
          E'.find? c.key = some (storedAnswer st scope c) ∧
          c' = { c with value := storedAnswer st scope c }) cs cs' := by
  induction cs generalizing E with
  | nil =>
      exact ⟨E, [], rfl, fun k _ => rfl, List.Forall₂.nil⟩
  | cons c cs ih =>
      rw [List.map_cons, List.nodup_cons] at hnd
      have hEc := hE c (by simp)
      by_cases htr : (storedAnswer st scope c).truthy = true
      · obtain ⟨rv, hro⟩ := renderedAnswer?_truthy_some st scope c htr
        rw [hro] at hEc
        have hstep := AnswerStore.translateComponent_reproduce st scope c E rv
          (hgs c (by simp)).1 htr ((hgs c (by simp)).2 htr) hro hEc
        have hE₁ : ∀ c' ∈ cs, (E.set c.key (storedAnswer st scope c)).find? c'.key =
            (match renderedAnswer? st scope c' with
             | some rv => some (Value.str rv)
             | Option.none => Option.none) := by
          intro c' hc'
          rw [Entry.find?_set_ne E c.key c'.key _
            (fun he => hnd.1 (he ▸ List.mem_map_of_mem Component.key hc'))]
          exact hE c' (List.mem_cons_of_mem c hc')
        obtain ⟨E', cs', hloop, hother, hforall⟩ :=
          ih (E.set c.key (storedAnswer st scope c)) hnd.2
            (fun c' hc' => hgs c' (List.mem_cons_of_mem c hc')) hE₁
        refine ⟨E', { c with value := storedAnswer st scope c } :: cs',
          AnswerStore.translateLoop_cons_ok E c cs _ _ E' cs' hstep hloop, ?_, ?_⟩
        · intro k hk
          rw [hother k (fun c' hc' => hk c' (List.mem_cons_of_mem c hc'))]
          exact Entry.find?_set_ne E c.key k _ (Ne.symm (hk c (by simp)))
        · refine List.Forall₂.cons (fun _ => ⟨?_, rfl⟩) hforall
          rw [hother c.key (fun c' hc' he =>
            hnd.1 (he ▸ List.mem_map_of_mem Component.key hc'))]
          exact Entry.find?_set_self E c.key _
      · rw [renderedAnswer?_falsy st scope c (Bool.eq_false_iff.mpr htr)] at hEc
        have hstep := AnswerStore.translateComponent_skip E c
          (fun s hf => by rw [hEc] at hf; cases hf)
        obtain ⟨E', cs', hloop, hother, hforall⟩ :=
          ih E hnd.2 (fun c' hc' => hgs c' (List.mem_cons_of_mem c hc'))
            (fun c' hc' => hE c' (List.mem_cons_of_mem c hc'))
        refine ⟨E', c :: cs',
          AnswerStore.translateLoop_cons_ok E c cs E c E' cs' hstep hloop, ?_, ?_⟩
        · intro k hk
          exact hother k (fun c' hc' => hk c' (List.mem_cons_of_mem c hc'))
        · exact List.Forall₂.cons (fun h => absurd h htr) hforall

theorem AnswerStore.translate_reproduce (st : Storage) (d : Dialog) (st₁ : Storage)
    (hgd : GoodDialog st d)
    (hfind : st₁.find? d.scope =
      (if d.components = [] then Option.none else some (sectionEntry st d))) :
    ∃ (st₂ : Storage) (d' : Dialog),
      AnswerStore.translate st₁ d = .ok (st₂, d') ∧
      (∀ s, s ≠ d.scope → st₂.find? s = st₁.find? s) ∧
      d'.scope = d.scope ∧
      List.Forall₂ (fun c c' =>
        (storedAnswer st d.scope c).truthy = true →
          Entry.find? ((st₂.find? d.scope).getD []) c.key
            = some (storedAnswer st d.scope c) ∧
          c' = { c with value := storedAnswer st d.scope c }) d.components d'.components := by
  have hEk : ∀ c ∈ d.components, (sectionEntry st d).find? c.key =
      (match renderedAnswer? st d.scope c with
       | some rv => some (Value.str rv)
       | Option.none => Option.none) := by
    intro c hc
    rw [show sectionEntry st d = sectionEntryAux st d.scope d.components [] from rfl,
      sectionEntryAux_find_mem st d.scope d.components [] c hc hgd.2.2.2.1]
    cases hro : renderedAnswer? st d.scope c with
    | none => rfl
    | some rv => rfl
  by_cases hcs : d.components = []
  · rw [if_pos hcs] at hfind
    refine ⟨st₁, d, AnswerStore.translate_none st₁ d hfind, fun s _ => rfl, rfl, ?_⟩
    rw [hcs]
    exact List.Forall₂.nil
  · rw [if_neg hcs] at hfind
    by_cases hemp : sectionEntry st d = []
    · refine ⟨st₁, d, AnswerStore.translate_empty st₁ d _ hfind hemp, fun s _ => rfl, rfl, ?_⟩
      refine List.forall₂_same.mpr (fun c hc htr => ?_)
      exfalso
      obtain ⟨rv, hro⟩ := renderedAnswer?_truthy_some st d.scope c htr
      have h1 := hEk c hc
      rw [hro, hemp] at h1
      rw [show Entry.find? ([] : Entry) c.key = Option.none from rfl] at h1
      cases h1
    · obtain ⟨E', cs', hloop, hother, hforall⟩ :=
        AnswerStore.translateLoop_reproduce st d.scope d.components (sectionEntry st d)
          hgd.2.2.2.1 hgd.2.2.2.2 hEk
      refine ⟨st₁.set d.scope E', { d with components := cs' },
        AnswerStore.translate_run st₁ d _ E' cs' hfind hemp hloop, ?_, rfl, ?_⟩
      · intro s hs
        exact Storage.find?_set_other st₁ d.scope s E' hs
      · rw [show Storage.find? (st₁.set d.scope E') d.scope = some E' from
          Storage.find?_set_same st₁ d.scope E']
        exact hforall

theorem AnswerStore.translateDialogs_cons_ok (st : Storage) (d : Dialog)
    (ds : List Dialog) (stA : Storage) (d' : Dialog) (st₂ : Storage)
    (ds₂ : List Dialog)
    (h₁ : AnswerStore.translate st d = .ok (stA, d'))
    (h₂ : AnswerStore.translateDialogs stA ds = .ok (st₂, ds₂)) :
    AnswerStore.translateDialogs st (d :: ds) = .ok (st₂, d' :: ds₂) := by
  unfold AnswerStore.translateDialogs
  rw [h₁, exceptBind_ok]
  show (do
    let x ← AnswerStore.translateDialogs stA ds
    Except.ok (x.1, d' :: x.2) : Except PyErr (Storage × List Dialog)) = _
  rw [h₂, exceptBind_ok]

theorem AnswerStore.translateDialogs_reproduce (st : Storage) (dialogs : List Dialog)
    (st₁ : Storage)
    (hnd : (dialogs.map Dialog.scope).Nodup)
    (hgds : ∀ d ∈ dialogs, GoodDialog st d)
    (hfind : ∀ d ∈ dialogs, st₁.find? d.scope =
      (if d.components = [] then Option.none else some (sectionEntry st d))) :
    ∃ (st₂ : Storage) (ds₂ : List Dialog),
      AnswerStore.translateDialogs st₁ dialogs = .ok (st₂, ds₂) ∧
      (∀ s, (∀ d ∈ dialogs, d.scope ≠ s) → st₂.find? s = st₁.find? s) ∧
      List.Forall₂ (fun d d' =>
        d'.scope = d.scope ∧
        List.Forall₂ (fun c c' =>
          (storedAnswer st d.scope c).truthy = true →
            Entry.find? ((st₂.find? d.scope).getD []) c.key
              = some (storedAnswer st d.scope c) ∧
            c' = { c with value := storedAnswer st d.scope c })
          d.components d'.components) dialogs ds₂ := by
  induction dialogs generalizing st₁ with
  | nil =>
      exact ⟨st₁, [], rfl, fun s _ => rfl, List.Forall₂.nil⟩
  | cons d ds ih =>
      rw [List.map_cons, List.nodup_cons] at hnd
      obtain ⟨stA, d', htrans, hotherA, hscope, hforallA⟩ :=
        AnswerStore.translate_reproduce st d st₁ (hgds d (by simp)) (hfind d (by simp))
      obtain ⟨st₂, ds₂, hloop, hother, hforall⟩ :=
        ih stA hnd.2 (fun d₂ hd₂ => hgds d₂ (List.mem_cons_of_mem d hd₂))
          (fun d₂ hd₂ => by
            rw [hotherA d₂.scope
              (fun he => hnd.1 (he ▸ List.mem_map_of_mem Dialog.scope hd₂))]
            exact hfind d₂ (List.mem_cons_of_mem d hd₂))
      have hkeep : st₂.find? d.scope = stA.find? d.scope :=
        hother d.scope (fun d₂ hd₂ he =>
          hnd.1 (he ▸ List.mem_map_of_mem Dialog.scope hd₂))
      refine ⟨st₂, d' :: ds₂,
        AnswerStore.translateDialogs_cons_ok st₁ d ds stA d' st₂ ds₂ htrans hloop, ?_, ?_⟩
      · intro s hs
        rw [hother s (fun d₂ hd₂ => hs d₂ (List.mem_cons_of_mem d hd₂))]
        exact hotherA s (Ne.symm (hs d (by simp)))
      · refine List.Forall₂.cons ⟨hscope, ?_⟩ hforall
        rw [hkeep]
        exact hforallA

/-- Round-trip agreement between a stored answer and the value `translate`
restores. The multi-choice branch builds
`tuple(set(elements).intersection(component.choices))`, whose element order
is unspecified (hash-dependent), so tuple answers agree up to a permutation
of their elements; every other value round-trips exactly. -/
def Value.sameAnswer : Value → Value → Prop
  | Value.tuple xs, Value.tuple ys => List.Perm xs ys
  | v, w => v = w

theorem Value.sameAnswer_refl (v : Value) : Value.sameAnswer v v := by
  cases v with
  | tuple xs => exact List.Perm.refl xs
  | str s => rfl
  | bool b => rfl
  | int i => rfl
  | none => rfl

/-- C2 (amended): the generate → load → translate round trip. The claim as
stated fails for falsy answers (see the counterexample: a stored
`Value.bool false` is emitted only as a commented suggestion and is lost).
Amended: for dialogs with distinct scopes whose metadata is newline-free,
whose keys are parse-stable, and whose stored answers are well-typed for
their components and render to parse-stable strings, running `generate`,
then `load` on the produced file, then the per-dialog `translate` loop
succeeds, and every previously-answered (truthy) component gets its answer
back — exactly for `bool`, `int` and `str` answers, and up to a permutation
of its elements for `tuple` answers, whose element order the
`tuple(set(...).intersection(...))` coercion leaves unspecified — the same
restored value appearing in the resulting storage entry and in the
component's value slot. -/
theorem claimC2_roundtrip (st : Storage) (dialogs : List Dialog)
    (hgds : GoodDialogs st dialogs) :
    ∃ (file : String) (st₁ st₂ : Storage) (ds₂ : List Dialog),
      AnswerStore.generate st dialogs = .ok file ∧
      AnswerStore.load [] file = .ok st₁ ∧
      AnswerStore.translateDialogs st₁ dialogs = .ok (st₂, ds₂) ∧
      List.Forall₂ (fun d d' =>
        d'.scope = d.scope ∧
        List.Forall₂ (fun c c' =>
          (storedAnswer st d.scope c).truthy = true →
            ∃ v' : Value,
              Entry.find? ((st₂.find? d.scope).getD []) c.key = some v' ∧
              c' = { c with value := v' } ∧
              Value.sameAnswer (storedAnswer st d.scope c) v')
          d.components d'.components) dialogs ds₂ := by
  obtain ⟨file, hgen, hload⟩ := AnswerStore.load_generate st dialogs hgds.1 hgds.2
  have hf : ∀ d ∈ dialogs, Storage.find? (parsedSections st dialogs []) d.scope =
      (if d.components = [] then Option.none else some (sectionEntry st d)) := by
    intro d hd
    rw [parsedSections_find_mem st dialogs [] d hd hgds.1]
    split
    · rfl
    · rfl
  obtain ⟨st₂, ds₂, htrans, _, hforall⟩ :=
    AnswerStore.translateDialogs_reproduce st dialogs _ hgds.1 hgds.2 hf
  refine ⟨file, _, st₂, ds₂, hgen, hload, htrans, ?_⟩
  refine hforall.imp ?_
  intro d d' hd
  refine ⟨hd.1, hd.2.imp ?_⟩
  intro c c' hc htr
  exact ⟨storedAnswer st d.scope c, (hc htr).1, (hc htr).2,
    Value.sameAnswer_refl (storedAnswer st d.scope c)⟩

def cC2wFlag : Component :=
  { key := "flag", label := "Use flag", description := "desc",
    value_type := ValueType.bool, default := Value.bool false,
    choices := Option.none, value := Value.none }

def cC2wNum : Component :=
  { key := "num", label := "A number", description := "desc",
    value_type := ValueType.int, default := Value.str "0",
    choices := Option.none, value := Value.none }

def dC2w : Dialog :=
  { scope := "sect", title := "Title", reason := "Reason",
    components := [cC2wFlag, cC2wNum] }

def stC2w : Storage :=
  [("sect", [("flag", Value.bool true), ("num", Value.int (-7))])]

theorem goodKeyFlag : goodKey "flag" := by
  unfold goodKey
  refine ⟨by decide, by decide, by decide, by decide, ?_⟩
  intro ch hc
  injection hc with h
  subst h
  decide

theorem goodKeyNum : goodKey "num" := by
  unfold goodKey
  refine ⟨by decide, by decide, by decide, by decide, ?_⟩
  intro ch hc
  injection hc with h
  subst h
  decide

theorem goodC2wFlag : GoodComponent cC2wFlag := by
  refine ⟨goodKeyFlag, by decide, by decide, ?_, ?_, by decide⟩
  · intro chs h
    simp [cC2wFlag] at h
  · intro h
    simp [cC2wFlag] at h

theorem goodC2wNum : GoodComponent cC2wNum := by
  refine ⟨goodKeyNum, by decide, by decide, ?_, ?_, by decide⟩
  · intro chs h
    simp [cC2wNum] at h
  · intro h
    simp [cC2wNum] at h

theorem goodC2w : GoodDialogs stC2w [dC2w] := by
  refine ⟨by decide, ?_⟩
  intro d hd
  rw [List.mem_singleton] at hd
  subst hd
  refine ⟨by unfold goodScopeName; decide, by decide, by decide, by decide, ?_⟩
  intro c hc
  rcases List.mem_cons.mp hc with rfl | hc
  · refine ⟨goodC2wFlag, fun _ => ?_⟩
    exact show storedAnswer stC2w dC2w.scope cC2wFlag = Value.bool true from by decide
  · rw [List.mem_singleton] at hc
    subst hc
    refine ⟨goodC2wNum, fun _ => ?_⟩
    exact show ∃ n : Int, storedAnswer stC2w dC2w.scope cC2wNum = Value.int n from
      ⟨-7, by decide⟩

/-- Witness: the round trip at a concrete storage and dialog, with a `bool`
and an `int` answer both reproduced. -/
theorem claimC2_witness :
    GoodDialogs stC2w [dC2w] ∧
    (∃ (file : String) (st₁ st₂ : Storage) (ds₂ : List Dialog),
      AnswerStore.generate stC2w [dC2w] = .ok file ∧
      AnswerStore.load [] file = .ok st₁ ∧
      AnswerStore.translateDialogs st₁ [dC2w] = .ok (st₂, ds₂) ∧
      List.Forall₂ (fun d d' =>
        d'.scope = d.scope ∧
        List.Forall₂ (fun c c' =>
          (storedAnswer stC2w d.scope c).truthy = true →
            ∃ v' : Value,
              Entry.find? ((st₂.find? d.scope).getD []) c.key = some v' ∧
              c' = { c with value := v' } ∧
              Value.sameAnswer (storedAnswer stC2w d.scope c) v')
          d.components d'.components) [dC2w] ds₂) :=
  ⟨goodC2w, claimC2_roundtrip stC2w [dC2w] goodC2w⟩
